import Mathlib

/-!
Verification of the normalization pipeline of `src/app.py` (a wiki data
builder).  Pure fragments of the Python source are shallowly embedded as
executable Lean definitions; stateful fragments are embedded as explicit
state passing.  Machine integers in the source are CPython arbitrary
precision integers, so they are modelled directly as `Int`.
-/

/-! ### Python string primitives

These model the CPython string operations the pipeline uses.  The model is
exact on ASCII input; `str.lower` is modelled on the ASCII range only
(`pyLower` never changes non-ASCII characters, CPython also lowers
non-ASCII uppercase letters, which the data of this pipeline does not
contain in the relevant positions).
-/

/-- The whitespace class of Python `str.strip` and of the regex class
backslash-s, restricted to ASCII: space, tab, newline, carriage return,
vertical tab, form feed. -/
def isPyWs (c : Char) : Bool :=
  c == ' ' || c == '\t' || c == '\n' || c == '\r' || c == '\x0b' || c == '\x0c'

/-- Python `str.strip()` on a character list. -/
def pyStripL (cs : List Char) : List Char :=
  ((cs.dropWhile isPyWs).reverse.dropWhile isPyWs).reverse

/-- Python `str.strip()`. -/
def pyStrip (s : String) : String := String.mk (pyStripL s.data)

/-- Python `text.replace("\n", " ")`. -/
def replaceNl (s : String) : String :=
  String.mk (s.data.map (fun c => if c == '\n' then ' ' else c))

/-- Truthiness coalescing `s or d` of Python on strings: the empty string is
falsy. -/
def pyOrStr (s d : String) : String := if s = "" then d else s

/-- `r.get(k)` giving an optional string, coalesced with `or ""`. -/
def pyOptStr (o : Option String) : String :=
  match o with
  | none => ""
  | some s => s

/-- Truthiness coalescing `v or d` of Python on optional integers (as in
`prow["sort_order"] or 99999`): both `None` and `0` are falsy. -/
def pyOrInt (o : Option Int) (d : Int) : Int :=
  match o with
  | none => d
  | some v => if v = 0 then d else v

/-- `o.get(k)` with default `0` as used on the optional integer columns of a
left join (`row["is_default"] or 0`): `None` is falsy and `0` stays `0`. -/
def pyOrZero (o : Option Int) : Int :=
  match o with
  | none => 0
  | some v => v

/-- Value of a nonempty all-digit character list, `none` otherwise. -/
def digitsVal : List Char → Option Nat
  | [] => none
  | [c] => if c.isDigit then some (c.toNat - '0'.toNat) else none
  | c :: cs =>
      if c.isDigit then
        (digitsVal cs).map (fun v => (c.toNat - '0'.toNat) * 10 ^ cs.length + v)
      else none

/-- Python `int(s)` as a partial function: optional sign after stripped
whitespace, then decimal digits (the underscore grouping of CPython literals
is not modelled; the dataset ids never use it). -/
def parseIntPy (s : String) : Option Int :=
  match pyStripL s.data with
  | '+' :: ds => (digitsVal ds).map (fun n => (n : Int))
  | '-' :: ds => (digitsVal ds).map (fun n => -(n : Int))
  | ds => (digitsVal ds).map (fun n => (n : Int))

/-- `safe_int` of src/app.py lines 40-44: `int(v or default)` with every
`ValueError` collapsed to the default.  `None` and the empty string pick the
default, and so does an unparsable string. -/
def safe_int (v : Option String) (default : Int) : Int :=
  match v with
  | none => default
  | some s => if s = "" then default else (parseIntPy s).getD default

/-- `safe_int` applied to a string that is known to be present. -/
def safeIntS (s : String) (default : Int) : Int := safe_int (some s) default

/-- ASCII lowercasing of one character (model of Python `str.lower`). -/
def pyLowerC (c : Char) : Char :=
  if 'A' ≤ c && c ≤ 'Z' then Char.ofNat (c.toNat + 32) else c

/-- Python `str.lower()` (ASCII model). -/
def pyLower (s : String) : String := String.mk (s.data.map pyLowerC)

/-- Splits a character list at the first occurrence of `stop`: returns the
characters before it and the characters after it, or `none` when `stop` does
not occur.  Used to model the shortest match of a negated character class
followed by its closing delimiter. -/
def splitUntil (stop : Char) : List Char → Option (List Char × List Char)
  | [] => none
  | c :: rest =>
      if c == stop then some ([], rest)
      else
        match splitUntil stop rest with
        | none => none
        | some (pre, post) => some (c :: pre, post)

theorem splitUntil_shrinks (stop : Char) :
    ∀ cs pre post, splitUntil stop cs = some (pre, post) → post.length < cs.length := by
  intro cs
  induction cs with
  | nil => intro pre post h; simp [splitUntil] at h
  | cons c rest ih =>
      intro pre post h
      simp only [splitUntil] at h
      split at h
      · cases h
        simp
      · split at h
        · cases h
        · rename_i p1 p2 hsp
          injection h with h2
          injection h2 with ha hb
          subst hb
          have := ih p1 p2 hsp
          simp only [List.length_cons]
          omega

/-- Attempts to recognise, right after an opening square bracket, the rest of
a footnote annotation as matched by the regex of `clean_effect_text`
(src/app.py line 73): a nonempty run without closing bracket, the closing
bracket, an opening brace, a nonempty run without closing brace, the closing
brace.  Returns the bracketed text and the remainder after the annotation. -/
def tryFootnote (cs : List Char) : Option (List Char × List Char) :=
  match splitUntil ']' cs with
  | none => none
  | some (inner, r1) =>
      if inner.isEmpty then none
      else
        match r1 with
        | [] => none
        | b :: r2 =>
            if b == '\x7b' then
              match splitUntil '\x7d' r2 with
              | none => none
              | some (ref, r3) => if ref.isEmpty then none else some (inner, r3)
            else none

theorem tryFootnote_shrinks :
    ∀ cs inner after, tryFootnote cs = some (inner, after) → after.length < cs.length := by
  intro cs inner after h
  unfold tryFootnote at h
  split at h
  · cases h
  · rename_i inner1 r1 h1
    have hr1 : r1.length < cs.length := splitUntil_shrinks ']' cs inner1 r1 h1
    split at h
    · cases h
    · split at h
      · cases h
      · rename_i b r2
        split at h
        · split at h
          · cases h
          · rename_i ref r3 h3
            have hr3 : r3.length < r2.length := splitUntil_shrinks '\x7d' r2 ref r3 h3
            split at h
            · cases h
            · injection h with h2
              injection h2 with ha hb
              subst hb
              simp only [List.length_cons] at hr1
              omega
        · cases h

/-- The footnote-stripping pass of `clean_effect_text` (line 73): each
`[text]` followed by a brace reference collapses to `text`; an opening
bracket that does not begin such an annotation is kept.  The scan is driven
by a fuel argument so that the definition is structurally recursive and the
kernel can evaluate it; by `tryFootnote_shrinks` every recursive call
strictly shrinks the character list, so fuel equal to the input length (as
passed by `stripFootnotesL`) never runs out and the zero-fuel branch is
unreachable. -/
def stripFootnotesF : Nat → List Char → List Char
  | _, [] => []
  | 0, cs => cs
  | fuel + 1, c :: rest =>
      if c == '[' then
        match tryFootnote rest with
        | some (inner, after) => inner ++ stripFootnotesF fuel after
        | none => c :: stripFootnotesF fuel rest
      else c :: stripFootnotesF fuel rest

/-- The footnote-stripping pass at its adequate fuel. -/
def stripFootnotesL (cs : List Char) : List Char := stripFootnotesF cs.length cs

/-- The whitespace-collapsing pass of `clean_effect_text` (line 75): every
maximal whitespace run becomes one space, by one-character lookahead: a
whitespace character followed by another whitespace character is dropped,
the last one of a run is rendered as one space. -/
def collapseWsL : List Char → List Char
  | [] => []
  | [c] => if isPyWs c then [' '] else [c]
  | a :: b :: rest =>
      if isPyWs a then
        if isPyWs b then collapseWsL (b :: rest)
        else ' ' :: collapseWsL (b :: rest)
      else a :: collapseWsL (b :: rest)

/-- `clean_effect_text` of src/app.py lines 71-76: newline replacement, trim,
footnote stripping, removal of the remaining square brackets, whitespace
collapsing, final trim. -/
def clean_effect_text (text : String) : String :=
  let t1 := pyStripL (replaceNl text).data
  let t2 := stripFootnotesL t1
  let t3 := t2.filter (fun c => !(c == '[') && !(c == ']'))
  let t4 := collapseWsL t3
  String.mk (pyStripL t4)

/-! ### Regex-rule machinery of the heuristic translator

The translator (src/app.py lines 79-139) matches a fixed ordered list of
patterns against the normalized lower-cased text.  Each regex of the source
is modelled by an explicit scanner with the same leftmost-match,
greedy-with-backtracking semantics on the character classes involved.
-/

/-- Consumes the literal `pat` from the front of `cs`; returns the remainder
on success. -/
def dropLit : List Char → List Char → Option (List Char)
  | [], cs => some cs
  | _ :: _, [] => none
  | p :: ps, c :: cs => if c == p then dropLit ps cs else none

/-- Membership test of Python `pat in hay` on character lists. -/
def containsSubL (pat : List Char) : List Char → Bool
  | [] => pat.isEmpty
  | c :: rest => (dropLit pat (c :: rest)).isSome || containsSubL pat rest

/-- Membership test of Python `pat in hay` on strings. -/
def containsSub (hay pat : String) : Bool := containsSubL pat.data hay.data

/-- Match attempt, at the current position, of the flinch rule regex
`(\d+)% chance to make the target flinch\.?` (line 84): a maximal nonempty
digit run followed by the literal tail.  Only the maximal run can succeed
because the character after a shorter run is a digit, not a percent sign. -/
def flinchAt (cs : List Char) : Option (List Char) :=
  if (cs.takeWhile Char.isDigit).isEmpty then none
  else
    (dropLit ("% chance to make the target flinch".data)
        (cs.drop (cs.takeWhile Char.isDigit).length)).map
      (fun _ => cs.takeWhile Char.isDigit)

/-- Leftmost search of the flinch rule; returns the captured digit group. -/
def flinchSearch : List Char → Option (List Char)
  | [] => none
  | c :: rest =>
      match flinchAt (c :: rest) with
      | some ds => some ds
      | none => flinchSearch rest

/-- Character class `[a-z ]` of the stat-stage rules. -/
def isAZSp (c : Char) : Bool := ('a' ≤ c && c ≤ 'z') || c == ' '

/-- Remainders after consuming one optional character, in the greedy
backtracking order of a regex `x?`: first the remainder with `x` consumed
(when present), then the untouched input. -/
def optChar (x : Char) (cs : List Char) : List (List Char) :=
  match cs with
  | c :: r => if c == x then [r, cs] else [cs]
  | [] => [cs]

/-- The six stage words of the alternation `(one|two|three|four|five|six)`. -/
def stageWords : List String := ["one", "two", "three", "four", "five", "six"]

/-- Match of the tail ` by (one|two|three|four|five|six) stages?` right at the
front of `cs`; returns the captured stage word.  The optional plural `s` never
affects success. -/
def stageTail (cs : List Char) : Option String :=
  match dropLit (" by ".data) cs with
  | none => none
  | some r =>
      stageWords.findSome? (fun w =>
        match (dropLit w.data r).bind (dropLit (" stage".data)) with
        | some _ => some w
        | none => none)

/-- Greedy match of `([a-z ]+)` followed by the stage tail: tries the longest
nonempty class run first and backtracks one character at a time, as the regex
engine does.  The candidate group is carried reversed so that the recursion
is structural: the head of `grev` is the last character of the group, moved
back onto `rest` when the tail fails to match. -/
def shrinkGroupRev : List Char → List Char → Option (List Char × String)
  | [], _ => none
  | c :: grev2, rest =>
      match stageTail rest with
      | some w => some ((c :: grev2).reverse, w)
      | none => shrinkGroupRev grev2 (c :: rest)

/-- Greedy match of `([a-z ]+)` followed by the stage tail, group in source
order. -/
def shrinkGroup (g rest : List Char) : Option (List Char × String) :=
  shrinkGroupRev g.reverse rest

/-- Match attempt, at the current position, of a stat-stage rule
`<head>'?s? ([a-z ]+) by (one|...|six) stages?` (lines 118 and 124), where
`head` is `lowers the target` or `raises the user`.  The two optional
characters are tried in greedy backtracking order. -/
def stageAt (head : List Char) (cs : List Char) : Option (List Char × String) :=
  match dropLit head cs with
  | none => none
  | some r =>
      ((optChar '\x27' r).flatMap (optChar 's')).findSome? (fun r2 =>
        match r2 with
        | ' ' :: r3 =>
            let run := r3.takeWhile isAZSp
            shrinkGroup run (r3.drop run.length)
        | _ => none)

/-- Leftmost search of a stat-stage rule. -/
def stageSearch (head : List Char) : List Char → Option (List Char × String)
  | [] => none
  | c :: rest =>
      match stageAt head (c :: rest) with
      | some gw => some gw
      | none => stageSearch head rest

/-- Fixed stat-name lookup table `stat_map` (lines 107-115). -/
def stat_map : List (String × String) :=
  [("special defense", "특수방어"), ("special attack", "특수공격"),
   ("attack", "공격"), ("defense", "방어"), ("speed", "스피드"),
   ("accuracy", "명중"), ("evasion", "회피")]

/-- Fixed stage-magnitude lookup table `stage_map` (line 116). -/
def stage_map : List (String × String) :=
  [("one", "1"), ("two", "2"), ("three", "3"), ("four", "4"),
   ("five", "5"), ("six", "6")]

/-- Lookup in an association table with a default, as Python `dict.get`. -/
def mapGetD (m : List (String × String)) (k d : String) : String :=
  match m.find? (fun p => p.1 == k) with
  | some p => p.2
  | none => d

/-- Rendering of a captured stat group: stripped, then sent through
`stat_map` with the stripped group itself as the default (line 120). -/
def statOf (g : List Char) : String :=
  let key := pyStrip (String.mk g)
  mapGetD stat_map key key

/-- Rendering of a captured stage word through `stage_map` (line 121). -/
def stageOf (w : String) : String := mapGetD stage_map w w

/-- `translate_en_to_ko` of src/app.py lines 79-139: cleans the input,
lower-cases it for matching, then applies the ordered rule list; when no rule
matches, returns the cleaned original text behind the explicit
source-language marker. -/
def translate_en_to_ko (text : String) : String :=
  let t := clean_effect_text text
  let low := pyLower t
  match flinchSearch low.data with
  | some ds => String.mk ds ++ "% 확률로 상대를 풀죽게 한다."
  | none =>
    if containsSub low "inflicts regular damage with no additional effect" then
      "추가 효과 없이 일반적인 데미지를 준다."
    else if containsSub low "causes one-hit ko" then
      "일격에 상대를 쓰러뜨릴 수 있다."
    else if containsSub low "confuses the target" then
      "상대를 혼란 상태로 만든다."
    else if containsSub low "heals the user by half its max hp" then
      "사용자의 최대 HP 절반만큼 회복한다."
    else if containsSub low "equal to the user\x27s level"
        || containsSub low "equal to the user’s level" then
      "사용자의 레벨과 같은 데미지를 준다."
    else if containsSub low "protecting the user from further damage or status changes until it breaks"
        && containsSub low "1/4" then
      "사용자의 최대 HP의 1/4을 소비해 분신인 인형을 만들고, 인형이 사라질 때까지 데미지와 상태이상을 막는다."
    else
      match stageSearch ("lowers the target".data) low.data with
      | some (g, w) => "상대의 " ++ statOf g ++ "(을/를) " ++ stageOf w ++ "랭크 떨어뜨린다."
      | none =>
        match stageSearch ("raises the user".data) low.data with
        | some (g, w) => "사용자의 " ++ statOf g ++ "(을/를) " ++ stageOf w ++ "랭크 올린다."
        | none =>
          if containsSub low "prevents paralysis" then
            "마비 상태가 되지 않는다."
          else if containsSub low "protects against sandstorm damage" then
            "모래바람 데미지를 받지 않는다."
          else if containsSub low "increases evasion" && containsSub low "sandstorm" then
            "모래바람일 때 회피율이 상승한다."
          else
            "(영문 설명) " ++ t

/-- Candidate presence test of `choose_localized_text`: Python
`if cand and cand.strip()` on an optional string. -/
def candPresent (cand : Option String) : Bool :=
  match cand with
  | none => false
  | some s => !(s == "") && !(pyStrip s == "")

/-- First present candidate of a priority list, as the early-returning
`for` loops of `choose_localized_text`. -/
def firstPresent (cands : List (Option String)) : Option String :=
  cands.findSome? (fun c => if candPresent c then c else none)

/-- `choose_localized_text` of src/app.py lines 142-149: the first present
target-language candidate is cleaned; failing that, the first present
source-language candidate is translated; failing both, the fixed marker is
returned. -/
def choose_localized_text (ko_primary ko_secondary en_primary en_secondary : Option String) : String :=
  match firstPresent [ko_primary, ko_secondary] with
  | some s => clean_effect_text s
  | none =>
    match firstPresent [en_primary, en_secondary] with
    | some s => translate_en_to_ko s
    | none => "효과 정보가 없습니다."

/-! ### Localized-text resolver (`latest_localized_text`, src/app.py 53-66)

A source row is a CSV record; the three column names passed as `id_key`,
`text_key` and `order_key` select fields of the record, so a row is modelled
by the three selected fields together with `local_language_id`.  The id
column is accessed with mandatory indexing in the source (`r[id_key]`), so it
is a total field; the other two use `r.get`, so they are optional. -/

structure LocRow where
  entityId : String
  localLanguageId : Option String
  textVal : Option String
  orderVal : Option String
  deriving Repr, DecidableEq

/-- The newline-collapsed, blank-trimmed text of a row (line 58). -/
def locText (r : LocRow) : String :=
  pyStrip (replaceNl (pyOptStr r.textVal))

/-- The revision ordinal of a row (line 61). -/
def locOid (r : LocRow) : Int := safe_int r.orderVal 0

/-- One iteration of the accumulation loop of `latest_localized_text`
(lines 55-65): skip rows of other languages and rows with blank cleaned
text; otherwise keep the row when the key is new or its ordinal is at least
the stored one. -/
def latestStep (lang_id : String) (out : String → Option (Int × String)) (r : LocRow) :
    String → Option (Int × String) :=
  if !(r.localLanguageId == some lang_id) then out
  else if locText r == "" then out
  else
    match out r.entityId with
    | none => fun k => if k == r.entityId then some (locOid r, locText r) else out k
    | some prev =>
        if locOid r ≥ prev.1 then
          fun k => if k == r.entityId then some (locOid r, locText r) else out k
        else out

/-- `latest_localized_text` of src/app.py lines 53-66, with the dictionary
modelled as a function from entity keys to optional entries. -/
def latest_localized_text (rows : List LocRow) (lang_id : String) : String → Option String :=
  fun k => ((rows.foldl (latestStep lang_id) (fun _ => none)) k).map (fun v => v.2)

/-- Specification-side candidate list for one entity key: the rows of the
requested language whose cleaned text is non-blank, keyed by (ordinal,
cleaned text), in source order. -/
def locCandidates (rows : List LocRow) (lang_id : String) (k : String) : List (Int × String) :=
  (rows.filter (fun r =>
    r.localLanguageId == some lang_id && !(locText r == "") && r.entityId == k)).map
    (fun r => (locOid r, locText r))

/-- The greatest ordinal among candidates. -/
def bestOid (cs : List (Int × String)) : Option Int :=
  cs.foldl (fun acc c =>
    match acc with
    | none => some c.1
    | some m => some (max m c.1)) none

/-- Specification-side selection: among the candidates, the one with the
greatest revision ordinal, ties broken in favour of the last-seen row. -/
def selectLatest (cs : List (Int × String)) : Option (Int × String) :=
  match bestOid cs with
  | none => none
  | some m => (cs.filter (fun c => c.1 == m)).getLast?

theorem bestOid_concat_none (cs : List (Int × String)) (c : Int × String)
    (h : bestOid cs = none) : bestOid (cs ++ [c]) = some c.1 := by
  unfold bestOid at h ⊢
  rw [List.foldl_append, h]
  rfl

theorem bestOid_concat_some (cs : List (Int × String)) (c : Int × String) (m : Int)
    (h : bestOid cs = some m) : bestOid (cs ++ [c]) = some (max m c.1) := by
  unfold bestOid at h ⊢
  rw [List.foldl_append, h]
  rfl

theorem bestOid_eq_none (cs : List (Int × String)) : bestOid cs = none ↔ cs = [] := by
  constructor
  · intro h
    cases cs using List.reverseRecOn with
    | nil => rfl
    | append_singleton l a =>
        cases hb : bestOid l with
        | none => rw [bestOid_concat_none l a hb] at h; cases h
        | some m => rw [bestOid_concat_some l a m hb] at h; cases h
  · intro h
    subst h
    rfl

theorem bestOid_spec (cs : List (Int × String)) (m : Int) (h : bestOid cs = some m) :
    (∃ c ∈ cs, c.1 = m) ∧ ∀ c ∈ cs, c.1 ≤ m := by
  induction cs using List.reverseRecOn generalizing m with
  | nil => cases h
  | append_singleton l a ih =>
      cases hb : bestOid l with
      | none =>
          have hl : l = [] := (bestOid_eq_none l).mp hb
          subst hl
          rw [bestOid_concat_none [] a hb] at h
          injection h with h
          constructor
          · exact ⟨a, by simp, h⟩
          · intro c hc
            simp at hc
            subst hc
            omega
      | some m0 =>
          rw [bestOid_concat_some l a m0 hb] at h
          injection h with h
          obtain ⟨⟨c0, hc0, hc0m⟩, hall⟩ := ih m0 hb
          have hm0le : m0 ≤ m := by rw [← h]; exact le_max_left _ _
          have hale : a.1 ≤ m := by rw [← h]; exact le_max_right _ _
          constructor
          · rcases max_cases m0 a.1 with ⟨hmax, _⟩ | ⟨hmax, _⟩
            · exact ⟨c0, List.mem_append_left _ hc0, by omega⟩
            · exact ⟨a, List.mem_append_right _ (by simp), by omega⟩
          · intro c hc
            rcases List.mem_append.mp hc with hc | hc
            · have := hall c hc
              omega
            · simp at hc
              subst hc
              omega

theorem selectLatest_eq_none (cs : List (Int × String)) :
    selectLatest cs = none ↔ cs = [] := by
  unfold selectLatest
  cases hb : bestOid cs with
  | none => simpa using (bestOid_eq_none cs).mp hb
  | some m =>
      obtain ⟨⟨c0, hc0, hc0m⟩, _⟩ := bestOid_spec cs m hb
      constructor
      · intro h
        exfalso
        rw [List.getLast?_eq_none_iff] at h
        have : c0 ∈ cs.filter (fun x => x.1 == m) :=
          List.mem_filter.mpr ⟨hc0, by simp [hc0m]⟩
        rw [h] at this
        cases this
      · intro h
        subst h
        cases hc0

theorem selectLatest_concat_none (cs : List (Int × String)) (c : Int × String)
    (h : selectLatest cs = none) : selectLatest (cs ++ [c]) = some c := by
  have hnil : cs = [] := (selectLatest_eq_none cs).mp h
  subst hnil
  unfold selectLatest
  rw [bestOid_concat_none [] c rfl]
  simp

theorem selectLatest_concat_some (cs : List (Int × String)) (c p : Int × String)
    (h : selectLatest cs = some p) :
    selectLatest (cs ++ [c]) = if c.1 ≥ p.1 then some c else some p := by
  unfold selectLatest at h ⊢
  cases hb : bestOid cs with
  | none => rw [hb] at h; cases h
  | some m =>
      rw [hb] at h
      obtain ⟨⟨c0, hc0, hc0m⟩, hall⟩ := bestOid_spec cs m hb
      have hpmem : p ∈ cs.filter (fun x => x.1 == m) := List.mem_of_getLast?_eq_some h
      have hpm : p.1 = m := by
        have := (List.mem_filter.mp hpmem).2
        simpa using this
      rw [bestOid_concat_some cs c m hb]
      have h2 : (List.filter (fun x => x.1 == m) cs).getLast? = some p := h
      rcases le_or_lt p.1 c.1 with hge | hlt
      · have hmax : max m c.1 = c.1 := by omega
        rw [hmax]
        show (List.filter (fun x => x.1 == c.1) (cs ++ [c])).getLast? =
          if c.1 ≥ p.1 then some c else some p
        rw [List.filter_append]
        simp only [List.filter_cons, List.filter_nil]
        have hceq : (c.1 == c.1) = true := by simp
        rw [hceq]
        simp only [if_true]
        rw [List.getLast?_concat]
        simp [ge_iff_le, hge]
      · have hmax : max m c.1 = m := by omega
        rw [hmax]
        show (List.filter (fun x => x.1 == m) (cs ++ [c])).getLast? =
          if c.1 ≥ p.1 then some c else some p
        rw [List.filter_append]
        have hcne : (c.1 == m) = false := by
          simp only [beq_eq_false_iff_ne, ne_eq]
          omega
        simp only [List.filter_cons, hcne, List.filter_nil]
        simp only [Bool.false_eq_true, if_false, List.append_nil]
        rw [h2]
        have hnot : ¬ (c.1 ≥ p.1) := by omega
        simp [hnot]

theorem locCandidates_concat (rows : List LocRow) (r : LocRow) (lang k : String) :
    locCandidates (rows ++ [r]) lang k =
      locCandidates rows lang k ++
        (if r.localLanguageId == some lang && !(locText r == "") && r.entityId == k
         then [(locOid r, locText r)] else []) := by
  unfold locCandidates
  rw [List.filter_append, List.map_append]
  congr 1
  simp only [List.filter_cons, List.filter_nil]
  by_cases hc : (r.localLanguageId == some lang && !(locText r == "") && r.entityId == k) = true
  · simp [hc]
  · simp [hc]

theorem latestStep_skip_lang (lang : String) (out : String → Option (Int × String)) (r : LocRow)
    (h : (r.localLanguageId == some lang) = false) : latestStep lang out r = out := by
  unfold latestStep
  rw [h]
  rfl

theorem latestStep_skip_blank (lang : String) (out : String → Option (Int × String)) (r : LocRow)
    (h1 : (r.localLanguageId == some lang) = true) (h2 : (locText r == "") = true) :
    latestStep lang out r = out := by
  unfold latestStep
  rw [h1, h2]
  rfl

theorem latestStep_other (lang : String) (out : String → Option (Int × String)) (r : LocRow)
    (k : String) (h3 : (k == r.entityId) = false) : latestStep lang out r k = out k := by
  unfold latestStep
  by_cases h1 : (r.localLanguageId == some lang) = true
  · rw [h1]
    by_cases h2 : (locText r == "") = true
    · rw [h2]
      simp
    · rw [Bool.not_eq_true] at h2
      rw [h2]
      simp only [Bool.not_true, Bool.false_eq_true, if_false]
      cases (out r.entityId) with
      | none => simp [h3]
      | some prev =>
          by_cases h4 : locOid r ≥ prev.1
          · simp [h4, h3]
          · simp [h4]
  · rw [Bool.not_eq_true] at h1
    rw [h1]
    simp

theorem latestStep_hit (lang : String) (out : String → Option (Int × String)) (r : LocRow)
    (h1 : (r.localLanguageId == some lang) = true) (h2 : (locText r == "") = false) :
    latestStep lang out r r.entityId =
      match out r.entityId with
      | none => some (locOid r, locText r)
      | some prev =>
          if locOid r ≥ prev.1 then some (locOid r, locText r) else out r.entityId := by
  unfold latestStep
  rw [h1, h2]
  simp only [Bool.not_true, Bool.false_eq_true, if_false]
  cases hout : (out r.entityId) with
  | none => simp
  | some prev =>
      by_cases h4 : locOid r ≥ prev.1
      · simp [h4]
      · simp [h4, hout]

theorem latest_fold_eq (lang : String) (rows : List LocRow) :
    ∀ k, (rows.foldl (latestStep lang) (fun _ => none)) k =
      selectLatest (locCandidates rows lang k) := by
  induction rows using List.reverseRecOn with
  | nil => intro k; rfl
  | append_singleton l r ih =>
      intro k
      rw [List.foldl_append, locCandidates_concat]
      show latestStep lang (l.foldl (latestStep lang) (fun _ => none)) r k = _
      by_cases h1 : (r.localLanguageId == some lang) = true
      · by_cases h2 : (locText r == "") = true
        · rw [latestStep_skip_blank lang _ r h1 h2]
          have hcond : (r.localLanguageId == some lang && !(locText r == "") && r.entityId == k) = false := by
            simp [h1, h2]
          rw [hcond]
          simp only [Bool.false_eq_true, if_false, List.append_nil]
          exact ih k
        · rw [Bool.not_eq_true] at h2
          by_cases h3 : (r.entityId == k) = true
          · have hkr : k = r.entityId := (eq_of_beq h3).symm
            subst hkr
            have hcond : (r.localLanguageId == some lang && !(locText r == "") && r.entityId == r.entityId) = true := by
              simp [h1, h2]
            rw [hcond]
            simp only [if_true]
            rw [latestStep_hit lang _ r h1 h2]
            cases hout : (l.foldl (latestStep lang) (fun _ => none)) r.entityId with
            | none =>
                have hsel : selectLatest (locCandidates l lang r.entityId) = none := by
                  rw [← ih r.entityId, hout]
                rw [selectLatest_concat_none _ _ hsel]
            | some prev =>
                have hsel : selectLatest (locCandidates l lang r.entityId) = some prev := by
                  rw [← ih r.entityId, hout]
                rw [selectLatest_concat_some _ _ _ hsel]
          · have hkne : (k == r.entityId) = false := by
              simp only [beq_eq_false_iff_ne, ne_eq]
              intro hk
              subst hk
              simp at h3
            rw [latestStep_other lang _ r k hkne]
            have hcond : (r.localLanguageId == some lang && !(locText r == "") && r.entityId == k) = false := by
              simp [h1, h2, h3]
            rw [hcond]
            simp only [Bool.false_eq_true, if_false, List.append_nil]
            exact ih k
      · rw [Bool.not_eq_true] at h1
        rw [latestStep_skip_lang lang _ r h1]
        have hcond : (r.localLanguageId == some lang && !(locText r == "") && r.entityId == k) = false := by
          simp [h1]
        rw [hcond]
        simp only [Bool.false_eq_true, if_false, List.append_nil]
        exact ih k

/-- C5: for every list of localized text rows, language id and entity key,
the latest-per-language map of `latest_localized_text` holds exactly the
newline-collapsed, blank-trimmed text of the candidate row (same language,
non-blank cleaned text) with the greatest revision ordinal, ties between
equal ordinals broken in favour of the last-seen row; an entity with no
non-blank candidate is absent from the map. -/
theorem C5_latest_text_greatest_ordinal_last_seen (rows : List LocRow) (lang k : String) :
    latest_localized_text rows lang k =
      (selectLatest (locCandidates rows lang k)).map (fun c => c.2) ∧
    (locCandidates rows lang k = [] → latest_localized_text rows lang k = none) := by
  constructor
  · unfold latest_localized_text
    rw [latest_fold_eq]
  · intro hnil
    unfold latest_localized_text
    rw [latest_fold_eq, hnil]
    rfl

/-- Specification-side cascade for the final text selection, written from
the priority list of the spec: first present target-language candidate
cleaned, else first present source-language candidate translated, else the
fixed marker. -/
def chooseSpecCascade (ko_primary ko_secondary en_primary en_secondary : Option String) : String :=
  if candPresent ko_primary then clean_effect_text (pyOptStr ko_primary)
  else if candPresent ko_secondary then clean_effect_text (pyOptStr ko_secondary)
  else if candPresent en_primary then translate_en_to_ko (pyOptStr en_primary)
  else if candPresent en_secondary then translate_en_to_ko (pyOptStr en_secondary)
  else "효과 정보가 없습니다."

/-- C6: the loop-based selection equals the explicit four-level priority
cascade: a non-blank target-language primary wins and is cleaned, then the
target-language secondary, then the source-language primary through the
translator, then the source-language secondary, and the fixed marker only
when all four are blank; a lower-priority candidate is never consulted when
a higher-priority one is non-blank. -/
theorem C6_choose_localized_text_priority (k1 k2 e1 e2 : Option String) :
    choose_localized_text k1 k2 e1 e2 = chooseSpecCascade k1 k2 e1 e2 := by
  unfold choose_localized_text chooseSpecCascade firstPresent
  by_cases h1 : candPresent k1 = true
  · cases k1 with
    | none => simp [candPresent] at h1
    | some s => simp [List.findSome?, h1, pyOptStr]
  · rw [Bool.not_eq_true] at h1
    by_cases h2 : candPresent k2 = true
    · cases k2 with
      | none => simp [candPresent] at h2
      | some s =>
          cases k1 with
          | none => simp [List.findSome?, h1, h2, pyOptStr]
          | some s1 => simp [List.findSome?, h1, h2, pyOptStr]
    · rw [Bool.not_eq_true] at h2
      have hko : [k1, k2].findSome? (fun c => if candPresent c then c else none) = none := by
        cases k1 <;> cases k2 <;> simp_all [List.findSome?]
      rw [hko]
      simp only [h1, h2, Bool.false_eq_true, if_false]
      by_cases h3 : candPresent e1 = true
      · cases e1 with
        | none => simp [candPresent] at h3
        | some s => simp [List.findSome?, h3, pyOptStr]
      · rw [Bool.not_eq_true] at h3
        by_cases h4 : candPresent e2 = true
        · cases e2 with
          | none => simp [candPresent] at h4
          | some s =>
              cases e1 with
              | none => simp [List.findSome?, h3, h4, pyOptStr]
              | some s1 => simp [List.findSome?, h3, h4, pyOptStr]
        · rw [Bool.not_eq_true] at h4
          have hen : [e1, e2].findSome? (fun c => if candPresent c then c else none) = none := by
            cases e1 <;> cases e2 <;> simp_all [List.findSome?]
          rw [hen]
          simp [h3, h4]

theorem str_append_ne_empty_right (a b : String) (hb : b ≠ "") : a ++ b ≠ "" := by
  intro hc
  apply hb
  have hd := congrArg String.data hc
  rw [String.data_append] at hd
  have hb2 : b.data = [] := (List.append_eq_nil.mp hd).2
  cases b with
  | mk l =>
      simp only [String.data] at hb2
      rw [hb2]

theorem str_append_ne_empty_left (a b : String) (ha : a ≠ "") : a ++ b ≠ "" := by
  intro hc
  apply ha
  have hd := congrArg String.data hc
  rw [String.data_append] at hd
  have ha2 : a.data = [] := (List.append_eq_nil.mp hd).1
  cases a with
  | mk l =>
      simp only [String.data] at ha2
      rw [ha2]

theorem translate_en_to_ko_ne_empty (t : String) : translate_en_to_ko t ≠ "" := by
  unfold translate_en_to_ko
  simp only []
  split
  · exact str_append_ne_empty_right _ _ (by decide)
  · repeat' split
    all_goals first
      | decide
      | exact str_append_ne_empty_left _ _ (by decide)
      | exact str_append_ne_empty_right _ _ (by decide)

/-- C7 counterexample: the candidate `"[]"` is non-blank before cleaning
(`cand and cand.strip()` accepts it), yet the final selection returns the
empty string, because cleaning deletes both brackets. -/
theorem C7_counterexample_bracket_candidate :
    candPresent (some "[]") = true ∧
    choose_localized_text (some "[]") none none none = "" := by
  constructor
  · decide
  · decide

/-- C7 amended: the final selection returns the empty string exactly when
the first present candidate is a target-language candidate whose cleaned
text is blank; in every other case (including every source-language
fallback, whose translation is never empty, and the no-candidate marker)
the result is non-empty. -/
theorem C7_amended_nonempty_unless_cleaned_blank (k1 k2 e1 e2 : Option String) :
    choose_localized_text k1 k2 e1 e2 = "" ↔
      ∃ s, firstPresent [k1, k2] = some s ∧ clean_effect_text s = "" := by
  unfold choose_localized_text
  cases hko : firstPresent [k1, k2] with
  | some s =>
      constructor
      · intro h
        exact ⟨s, rfl, h⟩
      · rintro ⟨s2, hs2, hc⟩
        injection hs2 with hs2
        subst hs2
        exact hc
  | none =>
      cases hen : firstPresent [e1, e2] with
      | some s =>
          constructor
          · intro h
            exact absurd h (translate_en_to_ko_ne_empty s)
          · rintro ⟨s2, hs2, _⟩
            cases hs2
      | none =>
          constructor
          · intro h
            exact absurd h (by decide)
          · rintro ⟨s2, hs2, _⟩
            cases hs2

/-! ### Language purity of the translator (C8) -/

/-- Normalized matching text of the translator: cleaned, then lower-cased. -/
def lowNorm (t : String) : String := pyLower (clean_effect_text t)

/-- An ASCII English letter (code points 97-122 and 65-90). -/
def isEngLetter (c : Char) : Bool :=
  (97 ≤ c.toNat && c.toNat ≤ 122) || (65 ≤ c.toNat && c.toNat ≤ 90)

/-- Whether a string contains any source-language (English) letter. -/
def containsEnglishLetter (s : String) : Bool := s.data.any isEngLetter

/-- Whether some pattern rule of the translator matches the normalized
text; the disjunction enumerates every rule guard of lines 84-136 in
source order. -/
def ruleMatched (low : String) : Bool :=
  (flinchSearch low.data).isSome
  || containsSub low "inflicts regular damage with no additional effect"
  || containsSub low "causes one-hit ko"
  || containsSub low "confuses the target"
  || containsSub low "heals the user by half its max hp"
  || containsSub low "equal to the user\x27s level"
  || containsSub low "equal to the user’s level"
  || (containsSub low "protecting the user from further damage or status changes until it breaks"
      && containsSub low "1/4")
  || (stageSearch ("lowers the target".data) low.data).isSome
  || (stageSearch ("raises the user".data) low.data).isSome
  || containsSub low "prevents paralysis"
  || containsSub low "protects against sandstorm damage"
  || (containsSub low "increases evasion" && containsSub low "sandstorm")

theorem isDigit_not_engLetter (c : Char) (h : c.isDigit = true) : isEngLetter c = false := by
  unfold isEngLetter
  simp only [Char.isDigit, Bool.and_eq_true, decide_eq_true_eq] at h
  simp only [Bool.or_eq_false_iff, Bool.and_eq_false_iff, decide_eq_false_iff_not, not_le,
    UInt32.le_def, UInt32.lt_def, BitVec.le_def, BitVec.lt_def, Char.toNat, UInt32.toNat] at *
  obtain ⟨h1, h2⟩ := h
  have e48 : (UInt32.toBitVec 48).toNat = 48 := rfl
  have e57 : (UInt32.toBitVec 57).toNat = 57 := rfl
  rw [e48] at h1
  rw [e57] at h2
  omega

theorem isDigit_ne_paren (c : Char) (h : c.isDigit = true) : c ≠ '(' := by
  intro hc
  subst hc
  exact absurd h (by decide)

theorem flinchAt_digits (cs ds : List Char) (h : flinchAt cs = some ds) :
    ds ≠ [] ∧ ∀ c ∈ ds, c.isDigit = true := by
  unfold flinchAt at h
  split at h
  · cases h
  · rename_i hne
    cases hdl : dropLit ("% chance to make the target flinch".data) (cs.drop (cs.takeWhile Char.isDigit).length) with
    | none => rw [hdl] at h; cases h
    | some r =>
        rw [hdl] at h
        injection h with h
        subst h
        refine ⟨by simpa [List.isEmpty_iff] using hne, ?_⟩
        intro c hc
        exact List.mem_takeWhile_imp hc

theorem flinchSearch_digits (cs ds : List Char) (h : flinchSearch cs = some ds) :
    ds ≠ [] ∧ ∀ c ∈ ds, c.isDigit = true := by
  induction cs with
  | nil => cases h
  | cons c rest ih =>
      unfold flinchSearch at h
      cases hat : flinchAt (c :: rest) with
      | some ds2 =>
          rw [hat] at h
          injection h with h
          subst h
          exact flinchAt_digits _ _ hat
      | none =>
          rw [hat] at h
          exact ih h

theorem stageTail_mem_stageWords (cs : List Char) (w : String) (h : stageTail cs = some w) :
    w ∈ stageWords := by
  unfold stageTail at h
  split at h
  · cases h
  · obtain ⟨a, ha, hfa⟩ := List.exists_of_findSome?_eq_some h
    split at hfa
    · injection hfa with hfa
      subst hfa
      exact ha
    · cases hfa

theorem shrinkGroupRev_w_mem (grev rest : List Char) (g : List Char) (w : String)
    (h : shrinkGroupRev grev rest = some (g, w)) : w ∈ stageWords := by
  induction grev generalizing rest with
  | nil => cases h
  | cons c grev2 ih =>
      unfold shrinkGroupRev at h
      cases ht : stageTail rest with
      | some w2 =>
          rw [ht] at h
          injection h with h
          injection h with h1 h2
          subst h2
          exact stageTail_mem_stageWords _ _ ht
      | none =>
          rw [ht] at h
          exact ih _ h

theorem stageAt_w_mem (head cs : List Char) (g : List Char) (w : String)
    (h : stageAt head cs = some (g, w)) : w ∈ stageWords := by
  unfold stageAt at h
  split at h
  · cases h
  · obtain ⟨a, ha, hfa⟩ := List.exists_of_findSome?_eq_some h
    split at hfa
    · exact shrinkGroupRev_w_mem _ _ _ _ hfa
    · cases hfa

theorem stageSearch_w_mem (head cs : List Char) (g : List Char) (w : String)
    (h : stageSearch head cs = some (g, w)) : w ∈ stageWords := by
  induction cs with
  | nil => cases h
  | cons c rest ih =>
      unfold stageSearch at h
      cases hat : stageAt head (c :: rest) with
      | some gw =>
          rw [hat] at h
          injection h with h
          subst h
          exact stageAt_w_mem _ _ _ _ hat
      | none =>
          rw [hat] at h
          exact ih h

theorem containsEnglishLetter_append (a b : String) :
    containsEnglishLetter (a ++ b) = (containsEnglishLetter a || containsEnglishLetter b) := by
  unfold containsEnglishLetter
  rw [String.data_append, List.any_append]

theorem stat_map_values_korean : ∀ p ∈ stat_map, containsEnglishLetter p.2 = false := by
  decide

theorem stageOf_values_korean : ∀ w ∈ stageWords, containsEnglishLetter (stageOf w) = false := by
  decide

theorem digits_no_engLetter (ds : List Char) (h : ∀ c ∈ ds, c.isDigit = true) :
    ds.any isEngLetter = false := by
  rw [List.any_eq_false]
  intro c hc
  rw [isDigit_not_engLetter c (h c hc)]
  exact Bool.false_ne_true

theorem str_ne_of_head (a b : String) (h : a.data.head? ≠ b.data.head?) : a ≠ b := by
  intro hc
  exact h (congrArg (fun s => s.data.head?) hc)

theorem fallback_head (t : String) :
    ("(영문 설명) " ++ clean_effect_text t).data.head? = some '(' := by
  rw [String.data_append]
  rfl

theorem mk_append_head (ds : List Char) (d : Char) (ds2 : List Char) (b : String)
    (hds : ds = d :: ds2) : (String.mk ds ++ b).data.head? = some d := by
  subst hds
  rw [String.data_append]
  rfl

/-- The two corrected language-purity clauses of the translator: the
fallback marker form is produced exactly when no rule matches, and an
output containing source-language letters is the fallback, a stat-stage
sentence whose captured stat name lies outside `stat_map`, or one of the
two fixed sentences containing the Latin abbreviation HP. -/
def translateClauses (t : String) : Prop :=
  (translate_en_to_ko t = "(영문 설명) " ++ clean_effect_text t ↔
    ruleMatched (pyLower (clean_effect_text t)) = false) ∧
  (containsEnglishLetter (translate_en_to_ko t) = true →
    ruleMatched (pyLower (clean_effect_text t)) = false ∨
    (∃ g w,
      (stageSearch ("lowers the target".data) (pyLower (clean_effect_text t)).data = some (g, w) ∨
       stageSearch ("raises the user".data) (pyLower (clean_effect_text t)).data = some (g, w)) ∧
      stat_map.find? (fun p => p.1 == pyStrip (String.mk g)) = none) ∨
    translate_en_to_ko t = "사용자의 최대 HP 절반만큼 회복한다." ∨
    translate_en_to_ko t = "사용자의 최대 HP의 1/4을 소비해 분신인 인형을 만들고, 인형이 사라질 때까지 데미지와 상태이상을 막는다.")

theorem option_some_or (a : Char) (o : Option Char) : (some a).or o = some a := rfl

theorem translate_fallback_of_no_rule (t : String)
    (hr : ruleMatched (pyLower (clean_effect_text t)) = false) :
    translate_en_to_ko t = "(영문 설명) " ++ clean_effect_text t := by
  unfold ruleMatched at hr
  simp only [Bool.or_eq_false_iff, Option.not_isSome, Option.isNone_iff_eq_none] at hr
  obtain ⟨⟨⟨⟨⟨⟨⟨⟨⟨⟨⟨⟨h1, h2⟩, h3⟩, h4⟩, h5⟩, h6⟩, h7⟩, h8⟩, h9⟩, h10⟩, h11⟩, h12⟩, h13⟩ := hr
  unfold translate_en_to_ko
  simp only [h1, h2, h3, h4, h5, h6, h7, h8, h9, h10, h11, h12, h13,
    Bool.false_eq_true, if_false, Bool.or_self]

theorem leaf_clauses (t lit : String)
    (hr : ¬ ruleMatched (pyLower (clean_effect_text t)) = false)
    (hEq : translate_en_to_ko t = lit)
    (hhead : lit.data.head? ≠ some '(')
    (h3 : containsEnglishLetter (translate_en_to_ko t) = true →
      ruleMatched (pyLower (clean_effect_text t)) = false ∨
      (∃ g w,
        (stageSearch ("lowers the target".data) (pyLower (clean_effect_text t)).data = some (g, w) ∨
         stageSearch ("raises the user".data) (pyLower (clean_effect_text t)).data = some (g, w)) ∧
        stat_map.find? (fun p => p.1 == pyStrip (String.mk g)) = none) ∨
      translate_en_to_ko t = "사용자의 최대 HP 절반만큼 회복한다." ∨
      translate_en_to_ko t = "사용자의 최대 HP의 1/4을 소비해 분신인 인형을 만들고, 인형이 사라질 때까지 데미지와 상태이상을 막는다.") :
    translateClauses t := by
  constructor
  · constructor
    · intro hfb
      rw [hEq] at hfb
      exact absurd hfb (str_ne_of_head _ _ (by rw [fallback_head]; exact hhead))
    · intro hfalse
      exact absurd hfalse hr
  · exact h3

theorem literal_leaf_clauses (t lit : String)
    (hr : ¬ ruleMatched (pyLower (clean_effect_text t)) = false)
    (hEq : translate_en_to_ko t = lit)
    (hhead : lit.data.head? ≠ some '(')
    (hlet : containsEnglishLetter lit = false) :
    translateClauses t := by
  refine leaf_clauses t lit hr hEq hhead ?_
  intro heng
  exfalso
  rw [hEq, hlet] at heng
  exact Bool.false_ne_true heng

theorem stage_leaf_clauses (t : String) (g : List Char) (w : String) (head1 tail1 : String)
    (c0 : Char)
    (hr : ¬ ruleMatched (pyLower (clean_effect_text t)) = false)
    (hEq : translate_en_to_ko t = head1 ++ statOf g ++ "(을/를) " ++ stageOf w ++ tail1)
    (hst : stageSearch ("lowers the target".data) (pyLower (clean_effect_text t)).data = some (g, w) ∨
           stageSearch ("raises the user".data) (pyLower (clean_effect_text t)).data = some (g, w))
    (hw : w ∈ stageWords)
    (hc0 : head1.data.head? = some c0)
    (hc0ne : c0 ≠ '(')
    (hlit1 : containsEnglishLetter head1 = false)
    (hlit2 : containsEnglishLetter tail1 = false) :
    translateClauses t := by
  constructor
  · constructor
    · intro hfb
      rw [hEq] at hfb
      refine absurd hfb (str_ne_of_head _ _ ?_)
      rw [fallback_head]
      simp only [String.data_append, List.head?_append, hc0, option_some_or, Option.or_some]
      intro hcc
      injection hcc with hcc
      exact hc0ne hcc
    · intro hfalse
      exact absurd hfalse hr
  · intro heng
    cases hfind : stat_map.find? (fun p => p.1 == pyStrip (String.mk g)) with
    | none => exact Or.inr (Or.inl ⟨g, w, hst, hfind⟩)
    | some p =>
        exfalso
        have hstat : statOf g = p.2 := by
          unfold statOf
          simp only []
          unfold mapGetD
          rw [hfind]
        have hpk : containsEnglishLetter p.2 = false :=
          stat_map_values_korean p (List.mem_of_find?_eq_some hfind)
        have hwk : containsEnglishLetter (stageOf w) = false := stageOf_values_korean w hw
        rw [hEq] at heng
        simp only [containsEnglishLetter_append] at heng
        rw [hstat, hpk, hlit1, hlit2, hwk] at heng
        have hmid : containsEnglishLetter "(을/를) " = false := by decide
        rw [hmid] at heng
        simp at heng

set_option maxHeartbeats 1000000 in
theorem translate_branch_walk (t : String) : translateClauses t := by
  by_cases hr : ruleMatched (pyLower (clean_effect_text t)) = false
  · have hfb := translate_fallback_of_no_rule t hr
    exact ⟨⟨fun _ => hr, fun _ => hfb⟩, fun _ => Or.inl hr⟩
  · cases hf : flinchSearch (pyLower (clean_effect_text t)).data with
    | some ds =>
        have hEq : translate_en_to_ko t = String.mk ds ++ "% 확률로 상대를 풀죽게 한다." := by
          unfold translate_en_to_ko
          simp only [hf]
        obtain ⟨hdne, hdig⟩ := flinchSearch_digits _ _ hf
        obtain ⟨d, ds2, hds⟩ : ∃ d ds2, ds = d :: ds2 := by
          cases ds with
          | nil => exact absurd rfl hdne
          | cons d ds2 => exact ⟨d, ds2, rfl⟩
        refine leaf_clauses t _ hr hEq ?_ ?_
        · rw [mk_append_head ds d ds2 _ hds]
          have hdd : d.isDigit = true := hdig d (by rw [hds]; exact List.mem_cons_self d ds2)
          have := isDigit_ne_paren d hdd
          simp [this]
        · intro heng
          exfalso
          rw [hEq, containsEnglishLetter_append] at heng
          have hds2 : (String.mk ds).data.any isEngLetter = false := digits_no_engLetter ds hdig
          unfold containsEnglishLetter at heng
          rw [hds2] at heng
          have hlit : ("% 확률로 상대를 풀죽게 한다.".data.any isEngLetter) = false := by decide
          rw [hlit] at heng
          simp at heng
    | none =>
      by_cases hc1 : containsSub (pyLower (clean_effect_text t)) "inflicts regular damage with no additional effect" = true
      · exact literal_leaf_clauses t "추가 효과 없이 일반적인 데미지를 준다." hr
          (by unfold translate_en_to_ko; simp only [hf, hc1, if_true]) (by decide) (by decide)
      · rw [Bool.not_eq_true] at hc1
        by_cases hc2 : containsSub (pyLower (clean_effect_text t)) "causes one-hit ko" = true
        · exact literal_leaf_clauses t "일격에 상대를 쓰러뜨릴 수 있다." hr
            (by unfold translate_en_to_ko;
                simp only [hf, hc1, hc2, Bool.false_eq_true, if_false, if_true])
            (by decide) (by decide)
        · rw [Bool.not_eq_true] at hc2
          by_cases hc3 : containsSub (pyLower (clean_effect_text t)) "confuses the target" = true
          · exact literal_leaf_clauses t "상대를 혼란 상태로 만든다." hr
              (by unfold translate_en_to_ko;
                  simp only [hf, hc1, hc2, hc3, Bool.false_eq_true, if_false, if_true])
              (by decide) (by decide)
          · rw [Bool.not_eq_true] at hc3
            by_cases hc4 : containsSub (pyLower (clean_effect_text t)) "heals the user by half its max hp" = true
            · refine leaf_clauses t "사용자의 최대 HP 절반만큼 회복한다." hr
                (by unfold translate_en_to_ko;
                    simp only [hf, hc1, hc2, hc3, hc4, Bool.false_eq_true, if_false, if_true])
                (by decide) ?_
              intro _
              refine Or.inr (Or.inr (Or.inl ?_))
              unfold translate_en_to_ko
              simp only [hf, hc1, hc2, hc3, hc4, Bool.false_eq_true, if_false, if_true]
            · rw [Bool.not_eq_true] at hc4
              by_cases hc5 : (containsSub (pyLower (clean_effect_text t)) "equal to the user\x27s level"
                  || containsSub (pyLower (clean_effect_text t)) "equal to the user’s level") = true
              · exact literal_leaf_clauses t "사용자의 레벨과 같은 데미지를 준다." hr
                  (by unfold translate_en_to_ko;
                      simp only [hf, hc1, hc2, hc3, hc4, hc5, Bool.false_eq_true, if_false, if_true])
                  (by decide) (by decide)
              · rw [Bool.not_eq_true] at hc5
                by_cases hc6 : (containsSub (pyLower (clean_effect_text t)) "protecting the user from further damage or status changes until it breaks"
                    && containsSub (pyLower (clean_effect_text t)) "1/4") = true
                · refine leaf_clauses t "사용자의 최대 HP의 1/4을 소비해 분신인 인형을 만들고, 인형이 사라질 때까지 데미지와 상태이상을 막는다." hr
                    (by unfold translate_en_to_ko;
                        simp only [hf, hc1, hc2, hc3, hc4, hc5, hc6, Bool.false_eq_true, if_false, if_true])
                    (by decide) ?_
                  intro _
                  refine Or.inr (Or.inr (Or.inr ?_))
                  unfold translate_en_to_ko
                  simp only [hf, hc1, hc2, hc3, hc4, hc5, hc6, Bool.false_eq_true, if_false, if_true]
                · rw [Bool.not_eq_true] at hc6
                  cases hsl : stageSearch ("lowers the target".data) (pyLower (clean_effect_text t)).data with
                  | some gw =>
                      obtain ⟨g, w⟩ := gw
                      exact stage_leaf_clauses t g w "상대의 " "랭크 떨어뜨린다." '상' hr
                        (by unfold translate_en_to_ko;
                            simp only [hf, hc1, hc2, hc3, hc4, hc5, hc6, hsl,
                              Bool.false_eq_true, if_false])
                        (Or.inl hsl) (stageSearch_w_mem _ _ _ _ hsl) rfl (by decide)
                        (by decide) (by decide)
                  | none =>
                    cases hsr : stageSearch ("raises the user".data) (pyLower (clean_effect_text t)).data with
                    | some gw =>
                        obtain ⟨g, w⟩ := gw
                        exact stage_leaf_clauses t g w "사용자의 " "랭크 올린다." '사' hr
                          (by unfold translate_en_to_ko;
                              simp only [hf, hc1, hc2, hc3, hc4, hc5, hc6, hsl, hsr,
                                Bool.false_eq_true, if_false])
                          (Or.inr hsr) (stageSearch_w_mem _ _ _ _ hsr) rfl (by decide)
                          (by decide) (by decide)
                    | none =>
                      by_cases hc7 : containsSub (pyLower (clean_effect_text t)) "prevents paralysis" = true
                      · exact literal_leaf_clauses t "마비 상태가 되지 않는다." hr
                          (by unfold translate_en_to_ko;
                              simp only [hf, hc1, hc2, hc3, hc4, hc5, hc6, hsl, hsr, hc7,
                                Bool.false_eq_true, if_false, if_true])
                          (by decide) (by decide)
                      · rw [Bool.not_eq_true] at hc7
                        by_cases hc8 : containsSub (pyLower (clean_effect_text t)) "protects against sandstorm damage" = true
                        · exact literal_leaf_clauses t "모래바람 데미지를 받지 않는다." hr
                            (by unfold translate_en_to_ko;
                                simp only [hf, hc1, hc2, hc3, hc4, hc5, hc6, hsl, hsr, hc7, hc8,
                                  Bool.false_eq_true, if_false, if_true])
                            (by decide) (by decide)
                        · rw [Bool.not_eq_true] at hc8
                          by_cases hc9 : (containsSub (pyLower (clean_effect_text t)) "increases evasion"
                              && containsSub (pyLower (clean_effect_text t)) "sandstorm") = true
                          · exact literal_leaf_clauses t "모래바람일 때 회피율이 상승한다." hr
                              (by unfold translate_en_to_ko;
                                  simp only [hf, hc1, hc2, hc3, hc4, hc5, hc6, hsl, hsr, hc7, hc8,
                                    hc9, Bool.false_eq_true, if_false, if_true])
                              (by decide) (by decide)
                          · rw [Bool.not_eq_true] at hc9
                            exfalso
                            apply hr
                            obtain ⟨hx, hy⟩ := Bool.or_eq_false_iff.mp hc5
                            unfold ruleMatched
                            rw [hf, hsl, hsr]
                            simp only [Option.isSome_none, hc1, hc2, hc3, hc4, hx, hy, hc6,
                              hc7, hc8, hc9, Bool.or_false, Bool.false_or]

/-- C8 counterexample: on the input `Lowers the target's cuteness by two
stages.` the stat-stage rule matches, the captured stat name `cuteness` is
not in `stat_map` and is emitted verbatim, so the output mixes
source-language text into a target-language sentence without being the
marked fallback form; the claim that only the marker-prefixed fallback may
contain source-language text is false. -/
theorem C8_counterexample_unmapped_stat :
    translate_en_to_ko "Lowers the target\x27s cuteness by two stages." =
      "상대의 cuteness(을/를) 2랭크 떨어뜨린다." ∧
    containsEnglishLetter "상대의 cuteness(을/를) 2랭크 떨어뜨린다." = true ∧
    "상대의 cuteness(을/를) 2랭크 떨어뜨린다." ≠
      "(영문 설명) " ++
        clean_effect_text "Lowers the target\x27s cuteness by two stages." := by
  refine ⟨by decide, by decide, by decide⟩

/-- C8 (amended): the heuristic translator always returns a non-empty
string; the marker-prefixed fallback (cleaned original text behind
`(영문 설명)`) is returned exactly when no pattern rule matches the
normalized lower-cased input; and an output containing source-language
(English) letters is either that fallback, or a stat-stage sentence whose
captured stat name lies outside the fixed `stat_map` table (the stat name
is then carried verbatim), or one of the two fixed sentences that contain
the Latin abbreviation HP — the unconditional claim that only the fallback
may contain source-language text does not hold. -/
theorem C8_amended_translator_language_purity (t : String) :
    translate_en_to_ko t ≠ "" ∧ translateClauses t :=
  ⟨translate_en_to_ko_ne_empty t, translate_branch_walk t⟩

/-- Witness for C8 (amended) at the concrete input `Raises the user's
coolness by one stage.`: the output is non-empty, contains English letters,
and the instantiated disjunction is discharged by the unmapped-stat case. -/
theorem C8_amended_witness :
    translate_en_to_ko "Raises the user\x27s coolness by one stage." ≠ "" ∧
    (containsEnglishLetter
        (translate_en_to_ko "Raises the user\x27s coolness by one stage.") = true) ∧
    (ruleMatched (pyLower (clean_effect_text "Raises the user\x27s coolness by one stage.")) = false ∨
      (∃ g w,
        (stageSearch ("lowers the target".data)
            (pyLower (clean_effect_text "Raises the user\x27s coolness by one stage.")).data = some (g, w) ∨
         stageSearch ("raises the user".data)
            (pyLower (clean_effect_text "Raises the user\x27s coolness by one stage.")).data = some (g, w)) ∧
        stat_map.find? (fun p => p.1 == pyStrip (String.mk g)) = none) ∨
      translate_en_to_ko "Raises the user\x27s coolness by one stage." =
        "사용자의 최대 HP 절반만큼 회복한다." ∨
      translate_en_to_ko "Raises the user\x27s coolness by one stage." =
        "사용자의 최대 HP의 1/4을 소비해 분신인 인형을 만들고, 인형이 사라질 때까지 데미지와 상태이상을 막는다.") :=
  ⟨(C8_amended_translator_language_purity "Raises the user\x27s coolness by one stage.").1,
   by decide,
   (C8_amended_translator_language_purity "Raises the user\x27s coolness by one stage.").2.2
     (by decide)⟩

/-! ### Type-effectiveness aggregator (`type_matchups`, src/app.py 629-653)

The two queried tables are carried as row lists: `typeRows` models the
result of `SELECT DISTINCT type_id, type_name_ko FROM pokemon_type` (the
ids already converted with `int(...)`), and `efficacyRows` the
`type_efficacy` table rows `(attack_type_id, target_type_id,
damage_factor)`.  The `names` dictionary keeps first-insertion key order
and the last value per key; `fetchone` returns the first matching row.
Damage multipliers are exact rationals: every Python float arising here is
a product of integer factors divided by powers of 100, represented without
rounding error in binary floating point for the factor values the pipeline
uses, so `ℚ` is a faithful model of the comparisons. -/

structure TypeEnv where
  typeRows : List (Int × String)
  efficacyRows : List (Int × Int × Int)

/-- First-occurrence deduplication with an avoided-key accumulator; with an
empty accumulator this is the key order of a Python dict built by repeated
assignment. -/
def dedupFirstKeep (seen : List Int) : List Int → List Int
  | [] => []
  | x :: rest =>
      if seen.contains x then dedupFirstKeep seen rest
      else x :: dedupFirstKeep (x :: seen) rest

/-- Keys of the `names` dictionary of `type_matchups` (line 631), in
insertion order. -/
def knownTypeIds (env : TypeEnv) : List Int :=
  dedupFirstKeep [] (env.typeRows.map (fun r => r.1))

/-- Value of the `names` dictionary at a key: the last row wins, as for a
Python dict comprehension. -/
def typeNameOf (env : TypeEnv) (tid : Int) : String :=
  match (env.typeRows.filter (fun r => r.1 == tid)).getLast? with
  | some r => r.2
  | none => ""

/-- The `fetchone` of the efficacy query (lines 637-640): the first row of
the table with the requested attacking and defending ids. -/
def efficacyLookup (env : TypeEnv) (atk dfd : Int) : Option Int :=
  (env.efficacyRows.find? (fun r => r.1 == atk && r.2.1 == dfd)).map (fun r => r.2.2)

/-- The combined damage multiplier of one attacking type against the
defending type list (lines 634-643): starts at `1.0` and multiplies in
`damage_factor / 100` for every defending type that has an efficacy row. -/
def combinedMultiplier (env : TypeEnv) (typeIds : List Int) (atk : Int) : ℚ :=
  typeIds.foldl
    (fun m dfd =>
      match efficacyLookup env atk dfd with
      | some f => m * ((f : ℚ) / 100)
      | none => m)
    1

/-- The sort key order of `collect` (line 647): ascending by multiplier,
then by localized type name (Python tuple comparison). -/
def pairLe (a b : String × ℚ) : Bool :=
  decide (a.2 < b.2) || ((a.2 == b.2) && decide (a.1 ≤ b.1))

/-- Insertion into a sorted bucket list. -/
def insertPair (x : String × ℚ) : List (String × ℚ) → List (String × ℚ)
  | [] => [x]
  | y :: rest => if pairLe x y then x :: y :: rest else y :: insertPair x rest

/-- The `sorted(...)` call of `collect`. -/
def sortPairs : List (String × ℚ) → List (String × ℚ)
  | [] => []
  | x :: rest => insertPair x (sortPairs rest)

theorem mem_insertPair (a x : String × ℚ) (l : List (String × ℚ)) :
    a ∈ insertPair x l ↔ a = x ∨ a ∈ l := by
  induction l with
  | nil => simp [insertPair]
  | cons y rest ih =>
      unfold insertPair
      split
      · simp
      · simp only [List.mem_cons, ih]
        tauto

theorem mem_sortPairs (a : String × ℚ) (l : List (String × ℚ)) :
    a ∈ sortPairs l ↔ a ∈ l := by
  induction l with
  | nil => simp [sortPairs]
  | cons x rest ih =>
      unfold sortPairs
      rw [mem_insertPair]
      simp [ih]

/-- The bucket builder `collect` of `type_matchups` (lines 645-647): the
known attacking types whose combined multiplier satisfies the predicate,
as (localized name, multiplier) pairs sorted by (multiplier, name). -/
def collect (env : TypeEnv) (typeIds : List Int) (pred : ℚ → Bool) : List (String × ℚ) :=
  sortPairs ((knownTypeIds env).filterMap (fun t =>
    if pred (combinedMultiplier env typeIds t) then
      some (typeNameOf env t, combinedMultiplier env typeIds t)
    else none))

/-- `type_matchups` of src/app.py lines 629-653: the weakness (multiplier
above one), resistance (multiplier strictly between zero and one) and
immune (multiplier exactly zero) buckets. -/
def type_matchups (env : TypeEnv) (typeIds : List Int) :
    List (String × ℚ) × List (String × ℚ) × List (String × ℚ) :=
  (collect env typeIds (fun m => decide (1 < m)),
   collect env typeIds (fun m => decide (0 < m) && decide (m < 1)),
   collect env typeIds (fun m => m == 0))

theorem mem_collect (env : TypeEnv) (typeIds : List Int) (pred : ℚ → Bool)
    (p : String × ℚ) :
    p ∈ collect env typeIds pred ↔
      ∃ t ∈ knownTypeIds env,
        pred (combinedMultiplier env typeIds t) = true ∧
        p = (typeNameOf env t, combinedMultiplier env typeIds t) := by
  unfold collect
  rw [mem_sortPairs, List.mem_filterMap]
  constructor
  · rintro ⟨t, ht, hp⟩
    split at hp
    · injection hp with hp
      exact ⟨t, ht, by assumption, hp.symm⟩
    · cases hp
  · rintro ⟨t, ht, hpred, hp⟩
    exact ⟨t, ht, by rw [hpred]; simp [hp]⟩

theorem mem_collect_snd (env : TypeEnv) (typeIds : List Int) (pred : ℚ → Bool)
    (p : String × ℚ) (h : p ∈ collect env typeIds pred) : pred p.2 = true := by
  rw [mem_collect] at h
  obtain ⟨t, ht, hpred, hp⟩ := h
  rw [hp]
  exact hpred

/-- Concrete environment for the C1 counterexample: one known type and no
efficacy rows. -/
def typeEnvC1 : TypeEnv := ⟨[(1, "노말")], []⟩

/-- C1 counterexample: with one known attacking type and no efficacy rows,
the combined multiplier is exactly one and all three buckets are empty, so
the buckets do not cover (partition) the known-type set. -/
theorem C1_counterexample_neutral_type_omitted :
    (1 : Int) ∈ knownTypeIds typeEnvC1 ∧
    combinedMultiplier typeEnvC1 [1] 1 = 1 ∧
    type_matchups typeEnvC1 [1] = ([], [], []) := by
  refine ⟨by decide, by decide, by decide⟩

/-- C1 (amended): for a defending set of one or two type ids, the three
buckets of `type_matchups` are pairwise disjoint, and a known attacking
type's (name, multiplier) pair lies in the weakness, resistance or immune
bucket exactly when its combined multiplier is above one, strictly between
zero and one, or exactly zero; a type with any other multiplier (such as
exactly one) appears in no bucket, so the buckets do not partition the
full known-type set. -/
theorem C1_amended_buckets_characterized (env : TypeEnv) (typeIds : List Int)
    (hlen : 1 ≤ typeIds.length ∧ typeIds.length ≤ 2) :
    (∀ t ∈ knownTypeIds env,
      ((typeNameOf env t, combinedMultiplier env typeIds t) ∈ (type_matchups env typeIds).1 ↔
        1 < combinedMultiplier env typeIds t) ∧
      ((typeNameOf env t, combinedMultiplier env typeIds t) ∈ (type_matchups env typeIds).2.1 ↔
        (0 < combinedMultiplier env typeIds t ∧ combinedMultiplier env typeIds t < 1)) ∧
      ((typeNameOf env t, combinedMultiplier env typeIds t) ∈ (type_matchups env typeIds).2.2 ↔
        combinedMultiplier env typeIds t = 0)) ∧
    (∀ p : String × ℚ,
      ¬(p ∈ (type_matchups env typeIds).1 ∧ p ∈ (type_matchups env typeIds).2.1) ∧
      ¬(p ∈ (type_matchups env typeIds).1 ∧ p ∈ (type_matchups env typeIds).2.2) ∧
      ¬(p ∈ (type_matchups env typeIds).2.1 ∧ p ∈ (type_matchups env typeIds).2.2)) := by
  unfold type_matchups
  dsimp only
  constructor
  · intro t ht
    refine ⟨?_, ?_, ?_⟩
    · constructor
      · intro hmem
        have := mem_collect_snd env typeIds _ _ hmem
        simpa using this
      · intro hlt
        rw [mem_collect]
        exact ⟨t, ht, by simpa using hlt, rfl⟩
    · constructor
      · intro hmem
        have := mem_collect_snd env typeIds _ _ hmem
        simpa using this
      · intro hbt
        rw [mem_collect]
        refine ⟨t, ht, ?_, rfl⟩
        simp only [Bool.and_eq_true, decide_eq_true_eq]
        exact hbt
    · constructor
      · intro hmem
        have := mem_collect_snd env typeIds _ _ hmem
        simpa using this
      · intro hz
        rw [mem_collect]
        exact ⟨t, ht, by simpa using hz, rfl⟩
  · intro p
    refine ⟨?_, ?_, ?_⟩
    · rintro ⟨h1, h2⟩
      have hw := mem_collect_snd env typeIds _ _ h1
      have hr := mem_collect_snd env typeIds _ _ h2
      simp only [decide_eq_true_eq, Bool.and_eq_true] at hw hr
      exact absurd hr.2 (by linarith)
    · rintro ⟨h1, h2⟩
      have hw := mem_collect_snd env typeIds _ _ h1
      have hi := mem_collect_snd env typeIds _ _ h2
      simp only [decide_eq_true_eq, beq_iff_eq] at hw hi
      rw [hi] at hw
      exact absurd hw (by norm_num)
    · rintro ⟨h1, h2⟩
      have hr := mem_collect_snd env typeIds _ _ h1
      have hi := mem_collect_snd env typeIds _ _ h2
      simp only [decide_eq_true_eq, Bool.and_eq_true, beq_iff_eq] at hr hi
      rw [hi] at hr
      exact absurd hr.1 (by norm_num)

/-- Witness for C1 (amended) at a concrete two-type environment. -/
theorem C1_amended_witness :
    (1 ≤ ([1] : List Int).length ∧ ([1] : List Int).length ≤ 2) ∧
    ((∀ t ∈ knownTypeIds typeEnvC1,
      ((typeNameOf typeEnvC1 t, combinedMultiplier typeEnvC1 [1] t) ∈ (type_matchups typeEnvC1 [1]).1 ↔
        1 < combinedMultiplier typeEnvC1 [1] t) ∧
      ((typeNameOf typeEnvC1 t, combinedMultiplier typeEnvC1 [1] t) ∈ (type_matchups typeEnvC1 [1]).2.1 ↔
        (0 < combinedMultiplier typeEnvC1 [1] t ∧ combinedMultiplier typeEnvC1 [1] t < 1)) ∧
      ((typeNameOf typeEnvC1 t, combinedMultiplier typeEnvC1 [1] t) ∈ (type_matchups typeEnvC1 [1]).2.2 ↔
        combinedMultiplier typeEnvC1 [1] t = 0)) ∧
    (∀ p : String × ℚ,
      ¬(p ∈ (type_matchups typeEnvC1 [1]).1 ∧ p ∈ (type_matchups typeEnvC1 [1]).2.1) ∧
      ¬(p ∈ (type_matchups typeEnvC1 [1]).1 ∧ p ∈ (type_matchups typeEnvC1 [1]).2.2) ∧
      ¬(p ∈ (type_matchups typeEnvC1 [1]).2.1 ∧ p ∈ (type_matchups typeEnvC1 [1]).2.2))) :=
  ⟨⟨by decide, by decide⟩, C1_amended_buckets_characterized typeEnvC1 [1] ⟨by decide, by decide⟩⟩

/-! ### Evolution topology builder (src/app.py 489-616)

The species, pokemon and evolution tables are carried as row lists with the
fields the builder reads.  The `pokemonRows` list models the rows of the
`SELECT p.*, f.* ... LEFT JOIN pokemon_form_meta` query (line 527): the
form-meta columns are optional because of the left join.  The four
localized-name dictionaries used only for condition text are carried as
lookup functions. -/

structure SpeciesRow where
  id : String
  evolvesFrom : String
  evolutionChainId : Option String
  deriving Repr, DecidableEq

structure PokemonRow where
  id : Int
  identifier : String
  speciesId : Int
  displayNameKo : String
  isDefault : Option Int
  isMega : Option Int
  isGmax : Option Int
  sortOrder : Option Int
  deriving Repr, DecidableEq

structure EvoRow where
  evolvedSpeciesId : String
  minimumLevel : Option String
  triggerItemId : Option String
  heldItemId : Option String
  evolutionTriggerId : Option String
  knownMoveTypeId : Option String
  knownMoveId : Option String
  locationId : Option String
  minimumHappiness : Option String
  timeOfDay : Option String
  deriving Repr, DecidableEq

structure SpeciesEnv where
  speciesRows : List SpeciesRow
  pokemonRows : List PokemonRow
  evolutionRows : List EvoRow
  itemNameKo : String → Option String
  itemIdentifier : String → Option String
  triggerIdentifier : String → Option String
  triggerKo : String → Option String

/-- The row a Python dict comprehension over the species table associates
with an id: the last row with that id (later assignments overwrite). -/
def speciesRowFor (env : SpeciesEnv) (s : String) : Option SpeciesRow :=
  (env.speciesRows.filter (fun r => r.id == s)).getLast?

/-- `species_parent.get(s, "")` (line 328): the species row field
`evolves_from_species_id or ""`. -/
def speciesParentOf (env : SpeciesEnv) (s : String) : String :=
  match speciesRowFor env s with
  | some r => pyOrStr r.evolvesFrom ""
  | none => ""

/-- `species_chain.get(s, 0)` (line 327): `safe_int` of the recorded
evolution chain id; the outer `safe_int(..., 0)` at line 517 is the
identity on integers and is absorbed here. -/
def speciesChainOf (env : SpeciesEnv) (s : String) : Int :=
  match speciesRowFor env s with
  | some r => safe_int r.evolutionChainId 0
  | none => 0

/-- Fuel-indexed depth recursion of `species_depth` (lines 512-522) without
the memoization cache: depth zero when the species has no parent or the
parent's recorded chain differs from the chain being computed, otherwise
one more than the parent's depth.  `none` means the fuel ran out; on
acyclic parent graphs enough fuel always exists (`speciesDepthF_total`). -/
def speciesDepthF (env : SpeciesEnv) (c : Int) : Nat → String → Option Nat
  | 0, _ => none
  | fuel + 1, s =>
      if (speciesParentOf env s == "") || !(speciesChainOf env (speciesParentOf env s) == c) then
        some 0
      else
        (speciesDepthF env c fuel (speciesParentOf env s)).map (fun d => d + 1)

/-- `species_depth` of src/app.py lines 510-522 with its memoization cache
`species_depth_cache`, modelled as an association list threaded through the
computation; the fuel argument bounds the recursion depth so that the
definition is total, and on acyclic parent graphs it never runs out. -/
def species_depth (env : SpeciesEnv) (c : Int) :
    Nat → List ((String × Int) × Nat) → String →
    Option (Nat × List ((String × Int) × Nat))
  | 0, _, _ => none
  | fuel + 1, cache, s =>
      match cache.lookup (s, c) with
      | some d => some (d, cache)
      | none =>
          if (speciesParentOf env s == "") || !(speciesChainOf env (speciesParentOf env s) == c) then
            some (0, ((s, c), 0) :: cache)
          else
            match species_depth env c fuel cache (speciesParentOf env s) with
            | none => none
            | some (d, cache2) => some (d + 1, ((s, c), d + 1) :: cache2)

theorem speciesRowFor_mem (env : SpeciesEnv) (s : String) (r : SpeciesRow)
    (h : speciesRowFor env s = some r) : r ∈ env.speciesRows ∧ r.id = s := by
  unfold speciesRowFor at h
  have hmem := List.mem_of_getLast?_eq_some h
  rw [List.mem_filter] at hmem
  exact ⟨hmem.1, by simpa using hmem.2⟩

theorem parentOf_nonempty_has_row (env : SpeciesEnv) (s : String)
    (h : speciesParentOf env s ≠ "") :
    ∃ r ∈ env.speciesRows, r.id = s ∧ speciesParentOf env s = pyOrStr r.evolvesFrom "" := by
  unfold speciesParentOf at h ⊢
  cases hrow : speciesRowFor env s with
  | none => rw [hrow] at h; exact absurd rfl h
  | some r =>
      obtain ⟨hmem, hid⟩ := speciesRowFor_mem env s r hrow
      exact ⟨r, hmem, hid, rfl⟩

/-- A rank function witnessing acyclicity of the parent-pointer graph:
every species row with a non-blank parent pointer has a parent of strictly
smaller rank.  On a finite acyclic graph such a rank always exists (for
example the distance to a root). -/
def RankOk (env : SpeciesEnv) (rank : String → Nat) : Prop :=
  ∀ r ∈ env.speciesRows, pyOrStr r.evolvesFrom "" ≠ "" →
    rank (pyOrStr r.evolvesFrom "") < rank r.id

theorem rank_parent_lt (env : SpeciesEnv) (rank : String → Nat) (hrank : RankOk env rank)
    (s : String) (h : speciesParentOf env s ≠ "") :
    rank (speciesParentOf env s) < rank s := by
  obtain ⟨r, hmem, hid, hpar⟩ := parentOf_nonempty_has_row env s h
  rw [hpar]
  rw [hpar] at h
  have := hrank r hmem h
  rwa [hid] at this

theorem speciesDepthF_mono (env : SpeciesEnv) (c : Int) :
    ∀ fuel1 fuel2 s d, fuel1 ≤ fuel2 → speciesDepthF env c fuel1 s = some d →
      speciesDepthF env c fuel2 s = some d := by
  intro fuel1
  induction fuel1 with
  | zero => intro fuel2 s d _ h; cases h
  | succ f1 ih =>
      intro fuel2 s d hle h
      cases fuel2 with
      | zero => omega
      | succ f2 =>
          unfold speciesDepthF at h ⊢
          split at h
          · rw [if_pos (by assumption)]
            exact h
          · rw [if_neg (by assumption)]
            cases hp : speciesDepthF env c f1 (speciesParentOf env s) with
            | none => rw [hp] at h; cases h
            | some dp =>
                rw [hp] at h
                rw [ih f2 (speciesParentOf env s) dp (by omega) hp]
                exact h

theorem speciesDepthF_stable (env : SpeciesEnv) (c : Int) (rank : String → Nat)
    (hrank : RankOk env rank) :
    ∀ n s fuel, rank s = n → rank s < fuel →
      speciesDepthF env c fuel s = speciesDepthF env c (rank s + 1) s := by
  intro n
  induction n using Nat.strong_induction_on with
  | _ n ih =>
      intro s fuel hn hfuel
      cases fuel with
      | zero => omega
      | succ f =>
          unfold speciesDepthF
          split
          · rfl
          · rename_i hcond
            have hpne : speciesParentOf env s ≠ "" := by
              intro hq
              apply hcond
              simp [hq]
            have hlt : rank (speciesParentOf env s) < rank s :=
              rank_parent_lt env rank hrank s hpne
            have h1 : speciesDepthF env c f (speciesParentOf env s) =
                speciesDepthF env c (rank (speciesParentOf env s) + 1) (speciesParentOf env s) := by
              apply ih (rank (speciesParentOf env s)) (by omega) _ _ rfl
              omega
            have h2 : speciesDepthF env c (rank s) (speciesParentOf env s) =
                speciesDepthF env c (rank (speciesParentOf env s) + 1) (speciesParentOf env s) := by
              apply ih (rank (speciesParentOf env s)) (by omega) _ _ rfl
              omega
            rw [h1, ← h2]

theorem speciesDepthF_total (env : SpeciesEnv) (c : Int) (rank : String → Nat)
    (hrank : RankOk env rank) :
    ∀ n s, rank s = n → ∃ d, speciesDepthF env c (rank s + 1) s = some d := by
  intro n
  induction n using Nat.strong_induction_on with
  | _ n ih =>
      intro s hn
      unfold speciesDepthF
      split
      · exact ⟨0, rfl⟩
      · rename_i hcond
        have hpne : speciesParentOf env s ≠ "" := by
          intro hq
          apply hcond
          simp [hq]
        have hlt : rank (speciesParentOf env s) < rank s :=
          rank_parent_lt env rank hrank s hpne
        obtain ⟨dp, hdp⟩ := ih (rank (speciesParentOf env s)) (by omega) (speciesParentOf env s) rfl
        have hmono := speciesDepthF_mono env c (rank (speciesParentOf env s) + 1) (rank s)
          (speciesParentOf env s) dp (by omega) hdp
        rw [hmono]
        exact ⟨dp + 1, rfl⟩

/-- Soundness of a memoization cache: every stored entry agrees with the
pure depth recursion at some fuel. -/
def CacheSound (env : SpeciesEnv) (cache : List ((String × Int) × Nat)) : Prop :=
  ∀ s c d, cache.lookup (s, c) = some d → ∃ fuel, speciesDepthF env c fuel s = some d

theorem speciesDepthF_agree (env : SpeciesEnv) (c : Int) (rank : String → Nat)
    (hrank : RankOk env rank) (s : String) (d : Nat) (fuel : Nat)
    (h : speciesDepthF env c fuel s = some d) :
    speciesDepthF env c (rank s + 1) s = some d := by
  have hmono := speciesDepthF_mono env c fuel (max fuel (rank s + 1)) s d (le_max_left _ _) h
  have hstable := speciesDepthF_stable env c rank hrank (rank s) s (max fuel (rank s + 1)) rfl
    (by omega)
  rw [hstable] at hmono
  exact hmono

theorem species_depth_correct (env : SpeciesEnv) (rank : String → Nat)
    (hrank : RankOk env rank) (c : Int) :
    ∀ n s cache fuel, rank s = n → rank s < fuel → CacheSound env cache →
      ∃ d cache2, species_depth env c fuel cache s = some (d, cache2) ∧
        speciesDepthF env c (rank s + 1) s = some d ∧ CacheSound env cache2 := by
  intro n
  induction n using Nat.strong_induction_on with
  | _ n ih =>
      intro s cache fuel hn hfuel hsound
      cases fuel with
      | zero => omega
      | succ f =>
          unfold species_depth
          cases hlk : cache.lookup (s, c) with
          | some d =>
              obtain ⟨fuel0, hf0⟩ := hsound s c d hlk
              exact ⟨d, cache, rfl, speciesDepthF_agree env c rank hrank s d fuel0 hf0, hsound⟩
          | none =>
              by_cases hcond : ((speciesParentOf env s == "") ||
                  !(speciesChainOf env (speciesParentOf env s) == c)) = true
              · rw [if_pos hcond]
                have hpure : speciesDepthF env c (rank s + 1) s = some 0 := by
                  unfold speciesDepthF
                  rw [if_pos hcond]
                refine ⟨0, ((s, c), 0) :: cache, rfl, hpure, ?_⟩
                intro s2 c2 d2 hlk2
                rw [List.lookup_cons] at hlk2
                split at hlk2
                · rename_i heq
                  have heq2 : (s2, c2) = (s, c) := eq_of_beq heq
                  injection heq2 with hs2 hc2
                  injection hlk2 with hd2
                  rw [hs2, hc2, ← hd2]
                  exact ⟨rank s + 1, hpure⟩
                · exact hsound s2 c2 d2 hlk2
              · rw [if_neg hcond]
                have hpne : speciesParentOf env s ≠ "" := by
                  intro hq
                  apply hcond
                  simp [hq]
                have hlt : rank (speciesParentOf env s) < rank s :=
                  rank_parent_lt env rank hrank s hpne
                obtain ⟨dp, cache2, hmemo, hpureP, hsound2⟩ :=
                  ih (rank (speciesParentOf env s)) (by omega) (speciesParentOf env s)
                    cache f rfl (by omega) hsound
                rw [hmemo]
                have hpure : speciesDepthF env c (rank s + 1) s = some (dp + 1) := by
                  unfold speciesDepthF
                  rw [if_neg hcond]
                  have hstable := speciesDepthF_stable env c rank hrank
                    (rank (speciesParentOf env s)) (speciesParentOf env s) (rank s) rfl (by omega)
                  rw [hstable, hpureP]
                  rfl
                refine ⟨dp + 1, ((s, c), dp + 1) :: cache2, rfl, hpure, ?_⟩
                intro s2 c2 d2 hlk2
                rw [List.lookup_cons] at hlk2
                split at hlk2
                · rename_i heq
                  have heq2 : (s2, c2) = (s, c) := eq_of_beq heq
                  injection heq2 with hs2 hc2
                  injection hlk2 with hd2
                  rw [hs2, hc2, ← hd2]
                  exact ⟨rank s + 1, hpure⟩
                · exact hsound2 s2 c2 d2 hlk2

/-- C2: for every species of an acyclic parent-pointer species list
(witnessed by a rank function decreasing along parent pointers) and every
chain id actually computed by the builder (chain ids are positive, the
builder only buckets `cid > 0`), the memoized recursion `species_depth`
terminates from the empty cache and its value `d` satisfies the
recurrence: `d = 0` when the species has no parent or the parent's
recorded chain id differs from the chain being computed (in particular
when the parent id is absent from the species table, where the recorded
chain id defaults to 0), and otherwise `d` is one more than the parent's
depth. -/
theorem C2_species_depth_terminates_and_recurrence (env : SpeciesEnv) (rank : String → Nat)
    (hrank : RankOk env rank) (c : Int) (hc : 0 < c) (s : String) :
    ∃ d cache2,
      species_depth env c (rank s + 1) [] s = some (d, cache2) ∧
      ((speciesParentOf env s = "" ∨ speciesChainOf env (speciesParentOf env s) ≠ c) → d = 0) ∧
      (speciesRowFor env (speciesParentOf env s) = none → d = 0) ∧
      (∀ dp fuel, speciesParentOf env s ≠ "" → speciesChainOf env (speciesParentOf env s) = c →
        speciesDepthF env c fuel (speciesParentOf env s) = some dp → d = dp + 1) := by
  obtain ⟨d, cache2, hmemo, hpure, _⟩ :=
    species_depth_correct env rank hrank c (rank s) s [] (rank s + 1) rfl (by omega)
      (fun s2 c2 d2 h => by cases h)
  refine ⟨d, cache2, hmemo, ?_, ?_, ?_⟩
  · intro hstop
    have hcond : ((speciesParentOf env s == "") ||
        !(speciesChainOf env (speciesParentOf env s) == c)) = true := by
      rcases hstop with hp | hch
      · simp [hp]
      · simp [hch]
    unfold speciesDepthF at hpure
    rw [if_pos hcond] at hpure
    injection hpure with hd
    exact hd.symm
  · intro hnorow
    have hch : speciesChainOf env (speciesParentOf env s) = 0 := by
      unfold speciesChainOf
      rw [hnorow]
    have : speciesChainOf env (speciesParentOf env s) ≠ c := by
      rw [hch]
      omega
    have hcond : ((speciesParentOf env s == "") ||
        !(speciesChainOf env (speciesParentOf env s) == c)) = true := by
      simp [this]
    unfold speciesDepthF at hpure
    rw [if_pos hcond] at hpure
    injection hpure with hd
    exact hd.symm
  · intro dp fuel hp hch hdF
    have hcond : ((speciesParentOf env s == "") ||
        !(speciesChainOf env (speciesParentOf env s) == c)) = false := by
      simp [hp, hch]
    unfold speciesDepthF at hpure
    rw [if_neg (by simp [hcond])] at hpure
    have hagree := speciesDepthF_agree env c rank hrank (speciesParentOf env s) dp fuel hdF
    have hlt : rank (speciesParentOf env s) < rank s := rank_parent_lt env rank hrank s hp
    have hstable := speciesDepthF_stable env c rank hrank (rank (speciesParentOf env s))
      (speciesParentOf env s) (rank s) rfl (by omega)
    rw [hstable, hagree] at hpure
    injection hpure with hd
    exact hd.symm

/-- Concrete two-species environment for the C2 witness: species 2 evolves
from species 1 inside chain 1. -/
def speciesEnvW : SpeciesEnv :=
  ⟨[⟨"1", "", some "1"⟩, ⟨"2", "1", some "1"⟩], [], [],
   fun _ => none, fun _ => none, fun _ => none, fun _ => none⟩

/-- Rank function for the witness environment. -/
def rankW (s : String) : Nat := if s == "2" then 1 else 0

/-- Witness for C2 at the concrete environment: the theorem is applied at
species 2 of chain 1 with every hypothesis discharged by evaluation. -/
theorem C2_witness :
    ∃ d cache2,
      species_depth speciesEnvW 1 (rankW "2" + 1) [] "2" = some (d, cache2) ∧
      ((speciesParentOf speciesEnvW "2" = "" ∨
        speciesChainOf speciesEnvW (speciesParentOf speciesEnvW "2") ≠ 1) → d = 0) ∧
      (speciesRowFor speciesEnvW (speciesParentOf speciesEnvW "2") = none → d = 0) ∧
      (∀ dp fuel, speciesParentOf speciesEnvW "2" ≠ "" →
        speciesChainOf speciesEnvW (speciesParentOf speciesEnvW "2") = 1 →
        speciesDepthF speciesEnvW 1 fuel (speciesParentOf speciesEnvW "2") = some dp →
        d = dp + 1) :=
  C2_species_depth_terminates_and_recurrence speciesEnvW rankW
    (by unfold RankOk; decide) 1 (by decide) "2"

/-! ### Evolution edges (src/app.py 569-616) -/

/-- `default_pokemon_by_species` (lines 525-531): the id of the last row of
the joined pokemon list whose species matches and whose `is_default or 0`
equals one (later rows overwrite the dict entry). -/
def defaultPokemonBySpecies (env : SpeciesEnv) (sid : Int) : Option Int :=
  ((env.pokemonRows.filter (fun r => r.speciesId == sid && pyOrZero r.isDefault == 1)).getLast?).map
    (fun r => r.id)

/-- `pokemon_rows_by_species` (lines 524-529): the joined rows of one
species, in query order. -/
def pokemonRowsBySpecies (env : SpeciesEnv) (sid : Int) : List PokemonRow :=
  env.pokemonRows.filter (fun r => r.speciesId == sid)

/-- Python truthiness on an optional id (`if not from_pid or not to_pid`,
line 592, and `if not base_pid`, line 603): both a missing entry and the
id `0` are falsy. -/
def truthyPid (o : Option Int) : Option Int :=
  match o with
  | none => none
  | some v => if v = 0 then none else some v

/-- `evo_by_species.get(sid_text)` (line 508): the last evolution row per
evolved species id. -/
def evoBySpecies (env : SpeciesEnv) (s : String) : Option EvoRow :=
  (env.evolutionRows.filter (fun r => r.evolvedSpeciesId == s)).getLast?

/-- `evo_condition_text` of src/app.py lines 533-567: the priority cascade
of condition renderings. -/
def evo_condition_text (env : SpeciesEnv) (evo : Option EvoRow) : String :=
  match evo with
  | none => ""
  | some e =>
      let min_level := safe_int e.minimumLevel 0
      let item_id := pyOptStr e.triggerItemId
      let held_item_id := pyOptStr e.heldItemId
      let trigger_id := pyOptStr e.evolutionTriggerId
      let known_move_type := pyOptStr e.knownMoveTypeId
      let known_move := pyOptStr e.knownMoveId
      let location_id := pyOptStr e.locationId
      let min_happiness := pyOptStr e.minimumHappiness
      let time_of_day := pyOptStr e.timeOfDay
      if 0 < min_level then "Lv." ++ toString min_level
      else if item_id ≠ "" then
        ((env.itemNameKo item_id).getD ((env.itemIdentifier item_id).getD "진화아이템")) ++ " 사용"
      else if held_item_id ≠ "" then
        ((env.itemNameKo held_item_id).getD ((env.itemIdentifier held_item_id).getD "아이템")) ++ " 지니고"
      else if min_happiness ≠ "" then "친밀도 " ++ min_happiness ++ "+"
      else if known_move ≠ "" then "특정 기술 습득"
      else if known_move_type ≠ "" then "특정 타입 기술 습득"
      else if location_id ≠ "" then "특정 장소"
      else if time_of_day ≠ "" then time_of_day
      else if trigger_id ≠ "" then
        if env.triggerIdentifier trigger_id = some "trade" then "교환"
        else (env.triggerKo trigger_id).getD ((env.triggerIdentifier trigger_id).getD "진화")
      else "진화"

/-- The bucket of species ids of one chain (`chain_species`, lines
490-494): species rows whose parsed chain id equals `cid`, in table order;
only positive chain ids are bucketed. -/
def chainBucket (env : SpeciesEnv) (cid : Int) : List String :=
  if cid ≤ 0 then []
  else (env.speciesRows.filter (fun r => safe_int r.evolutionChainId 0 == cid)).map (fun r => r.id)

/-- The depth value the edge builder reads: the fuel-indexed pure recursion
with a default of zero; with enough fuel on acyclic data this is the value
the memoized `species_depth` of the source computes. -/
def speciesDepthD (env : SpeciesEnv) (c : Int) (fuel : Nat) (s : String) : Nat :=
  (speciesDepthF env c fuel s).getD 0

structure EvoEdge where
  chainId : Int
  fromPokemonId : Int
  toPokemonId : Int
  conditionText : String
  sortOrder : Int
  deriving Repr, DecidableEq

/-- The ordinary evolution edge generated at one species position of a
chain bucket (lines 584-597), when any: skip species without a parent
pointer and species where either side lacks a truthy default entity;
otherwise connect the default entity of the parent species to the default
entity of the child species with sort ordinal `depth(child) * 10000 +
default_entity_id(child)`. -/
def ordinaryEdgeFor (env : SpeciesEnv) (fuel : Nat) (cid : Int) (sidText : String) :
    Option EvoEdge :=
  if speciesParentOf env sidText == "" then none
  else
    match truthyPid (defaultPokemonBySpecies env (safeIntS (speciesParentOf env sidText) 0)),
        truthyPid (defaultPokemonBySpecies env (safeIntS sidText 0)) with
    | some fromPid, some toPid =>
        some ⟨cid, fromPid, toPid, evo_condition_text env (evoBySpecies env sidText),
          (speciesDepthD env cid fuel sidText : Int) * 10000 + toPid⟩
    | _, _ => none

/-- The ordinary evolution edges of one chain, in bucket order. -/
def ordinaryEdges (env : SpeciesEnv) (fuel : Nat) (cid : Int) : List EvoEdge :=
  (chainBucket env cid).filterMap (ordinaryEdgeFor env fuel cid)

/-- The special-form edges generated at one species position (lines
599-613): from the species' truthy default entity to every other entity of
the species, with condition text chosen by the mega/gigantic flags and
sort ordinal `depth(species) * 10000 + (sort_order or 99999)`. -/
def specialEdgesFor (env : SpeciesEnv) (fuel : Nat) (cid : Int) (sidText : String) :
    List EvoEdge :=
  match truthyPid (defaultPokemonBySpecies env (safeIntS sidText 0)) with
  | none => []
  | some basePid =>
      (pokemonRowsBySpecies env (safeIntS sidText 0)).filterMap (fun prow =>
        if prow.id == basePid then none
        else
          some ⟨cid, basePid, prow.id,
            (if pyOrZero prow.isMega == 1 then "메가진화"
             else if pyOrZero prow.isGmax == 1 then "거다이맥스"
             else "폼변화"),
            (speciesDepthD env cid fuel sidText : Int) * 10000 + pyOrInt prow.sortOrder 99999⟩)

/-- The special-form edges of one chain, in bucket order. -/
def specialEdges (env : SpeciesEnv) (fuel : Nat) (cid : Int) : List EvoEdge :=
  (chainBucket env cid).flatMap (specialEdgesFor env fuel cid)

/-- The chain ids the builder iterates (`chain_species.items()`), in dict
insertion order: first occurrence of each positive parsed chain id. -/
def allChainIds (env : SpeciesEnv) : List Int :=
  dedupFirstKeep []
    ((env.speciesRows.map (fun r => safe_int r.evolutionChainId 0)).filter (fun c => decide (0 < c)))

/-- Every ordinary evolution edge the builder emits, over all chains. -/
def allOrdinaryEdges (env : SpeciesEnv) (fuel : Nat) : List EvoEdge :=
  (allChainIds env).flatMap (ordinaryEdges env fuel)

theorem ordinaryEdgeFor_sort (env : SpeciesEnv) (fuel : Nat) (cid : Int) (s : String)
    (e : EvoEdge) (h : ordinaryEdgeFor env fuel cid s = some e) :
    e.sortOrder = (speciesDepthD env cid fuel s : Int) * 10000 + e.toPokemonId ∧
    truthyPid (defaultPokemonBySpecies env (safeIntS s 0)) = some e.toPokemonId := by
  unfold ordinaryEdgeFor at h
  split at h
  · cases h
  · split at h
    · rename_i fromPid toPid hfrom hto
      injection h with h
      subst h
      exact ⟨rfl, hto⟩
    · cases h

theorem specialEdgesFor_mem (env : SpeciesEnv) (fuel : Nat) (cid : Int) (s : String)
    (e : EvoEdge) (h : e ∈ specialEdgesFor env fuel cid s) :
    ∃ prow ∈ pokemonRowsBySpecies env (safeIntS s 0),
      e.toPokemonId = prow.id ∧
      e.sortOrder = (speciesDepthD env cid fuel s : Int) * 10000 + pyOrInt prow.sortOrder 99999 := by
  unfold specialEdgesFor at h
  split at h
  · cases h
  · rename_i basePid hbase
    rw [List.mem_filterMap] at h
    obtain ⟨prow, hmem, hgen⟩ := h
    split at hgen
    · cases hgen
    · injection hgen with hgen
      subst hgen
      exact ⟨prow, hmem, rfl, rfl⟩

/-- C3 (amended): ordinary edges carry sort ordinal `depth(child) * 10000 +
default_entity_id(child)` and special-form edges carry `depth(species) *
10000 + (entity sort ordinal or 99999)`; the two kinds share one numeric
sort space, and at equal depth a special-form edge sorts after an ordinary
edge exactly when its entity sort ordinal exceeds the ordinary edge's
child default entity id — the unconditional claim that special-form edges
always sort after ordinary edges at the same depth does not hold. -/
theorem C3_amended_edge_sort_spaces (env : SpeciesEnv) (fuel : Nat) (cid : Int) :
    (∀ e ∈ ordinaryEdges env fuel cid,
      ∃ s ∈ chainBucket env cid,
        ordinaryEdgeFor env fuel cid s = some e ∧
        e.sortOrder = (speciesDepthD env cid fuel s : Int) * 10000 + e.toPokemonId) ∧
    (∀ e ∈ specialEdges env fuel cid,
      ∃ s ∈ chainBucket env cid, ∃ prow ∈ pokemonRowsBySpecies env (safeIntS s 0),
        e.toPokemonId = prow.id ∧
        e.sortOrder = (speciesDepthD env cid fuel s : Int) * 10000 + pyOrInt prow.sortOrder 99999) ∧
    (∀ s1 s2 : String, ∀ e1 e2 : EvoEdge,
      ordinaryEdgeFor env fuel cid s1 = some e1 →
      e2 ∈ specialEdgesFor env fuel cid s2 →
      speciesDepthD env cid fuel s1 = speciesDepthD env cid fuel s2 →
      (e1.sortOrder < e2.sortOrder ↔
        (e1.toPokemonId : Int) < e2.sortOrder - (speciesDepthD env cid fuel s2 : Int) * 10000)) := by
  refine ⟨?_, ?_, ?_⟩
  · intro e he
    unfold ordinaryEdges at he
    rw [List.mem_filterMap] at he
    obtain ⟨s, hs, hgen⟩ := he
    exact ⟨s, hs, hgen, (ordinaryEdgeFor_sort env fuel cid s e hgen).1⟩
  · intro e he
    unfold specialEdges at he
    rw [List.mem_flatMap] at he
    obtain ⟨s, hs, hmem⟩ := he
    obtain ⟨prow, hp, hto, hsort⟩ := specialEdgesFor_mem env fuel cid s e hmem
    exact ⟨s, hs, prow, hp, hto, hsort⟩
  · intro s1 s2 e1 e2 h1 h2 hd
    have hs1 := (ordinaryEdgeFor_sort env fuel cid s1 e1 h1).1
    obtain ⟨prow, hp, hto, hsort⟩ := specialEdgesFor_mem env fuel cid s2 e2 h2
    rw [hs1, hsort, hd]
    constructor
    · intro h
      omega
    · intro h
      omega

/-- Concrete environment for the C3 counterexample: chain 1 has root
species 1 (default entity 10) with two children, species 2 (default
entity 100) and species 3 (default entity 7 plus a mega entity 8 with
sort ordinal 8). -/
def envC3 : SpeciesEnv :=
  ⟨[⟨"1", "", some "1"⟩, ⟨"2", "1", some "1"⟩, ⟨"3", "1", some "1"⟩],
   [⟨10, "a", 1, "A", some 1, none, none, some 10⟩,
    ⟨100, "b", 2, "B", some 1, none, none, some 100⟩,
    ⟨7, "c", 3, "C", some 1, none, none, some 7⟩,
    ⟨8, "cm", 3, "CM", some 0, some 1, none, some 8⟩],
   [], fun _ => none, fun _ => none, fun _ => none, fun _ => none⟩

/-- C3 counterexample: in chain 1 the ordinary edge into species 2 (depth
1, sort ordinal 10100) and the special-form edge of species 3 (depth 1,
sort ordinal 10008) have the same depth, yet the special-form edge sorts
before the ordinary edge, so the claimed separation of the two sort
spaces (special always after ordinary at equal depth) is false. -/
theorem C3_counterexample_special_sorts_before_ordinary :
    (⟨1, 10, 100, "", 10100⟩ : EvoEdge) ∈ ordinaryEdges envC3 5 1 ∧
    (⟨1, 7, 8, "메가진화", 10008⟩ : EvoEdge) ∈ specialEdges envC3 5 1 ∧
    ordinaryEdgeFor envC3 5 1 "2" = some ⟨1, 10, 100, "", 10100⟩ ∧
    (⟨1, 7, 8, "메가진화", 10008⟩ : EvoEdge) ∈ specialEdgesFor envC3 5 1 "3" ∧
    speciesDepthD envC3 1 5 "2" = speciesDepthD envC3 1 5 "3" ∧
    (10008 : Int) < 10100 := by
  refine ⟨by decide, by decide, by decide, by decide, by decide, by decide⟩

/-- Witness for C3 (amended) at the concrete environment: the sort formula
of the ordinary edge into species 2 and the instantiated comparison
between that edge and the special-form edge of species 3. -/
theorem C3_amended_witness :
    (∃ s ∈ chainBucket envC3 1,
      ordinaryEdgeFor envC3 5 1 s = some ⟨1, 10, 100, "", 10100⟩ ∧
      (⟨1, 10, 100, "", 10100⟩ : EvoEdge).sortOrder =
        (speciesDepthD envC3 1 5 s : Int) * 10000 +
          (⟨1, 10, 100, "", 10100⟩ : EvoEdge).toPokemonId) ∧
    ((⟨1, 10, 100, "", 10100⟩ : EvoEdge).sortOrder <
        (⟨1, 7, 8, "메가진화", 10008⟩ : EvoEdge).sortOrder ↔
      ((⟨1, 10, 100, "", 10100⟩ : EvoEdge).toPokemonId : Int) <
        (⟨1, 7, 8, "메가진화", 10008⟩ : EvoEdge).sortOrder -
          (speciesDepthD envC3 1 5 "3" : Int) * 10000) :=
  ⟨(C3_amended_edge_sort_spaces envC3 5 1).1 _ (by decide),
   (C3_amended_edge_sort_spaces envC3 5 1).2.2 "2" "3" _ _ (by decide) (by decide) (by decide)⟩

/-! ### C4: uniqueness of ordinary evolution edges -/

theorem truthyPid_eq_some (o : Option Int) (v : Int) (h : truthyPid o = some v) :
    o = some v := by
  cases o with
  | none => exact Option.noConfusion h
  | some x =>
      have h2 : (if x = 0 then none else some x) = some v := h
      split at h2
      · cases h2
      · injection h2 with h2
        rw [h2]

theorem defaultPokemon_mem (env : SpeciesEnv) (sid pid : Int)
    (h : defaultPokemonBySpecies env sid = some pid) :
    ∃ r ∈ env.pokemonRows, r.id = pid ∧ r.speciesId = sid := by
  unfold defaultPokemonBySpecies at h
  rw [Option.map_eq_some'] at h
  obtain ⟨r, hr, hid⟩ := h
  have hmem := List.mem_of_getLast?_eq_some hr
  rw [List.mem_filter, Bool.and_eq_true] at hmem
  refine ⟨r, hmem.1, hid, ?_⟩
  have := hmem.2.1
  simpa using this

theorem defaultPokemon_inj (env : SpeciesEnv)
    (hp : (env.pokemonRows.map (fun r => r.id)).Nodup)
    (sid1 sid2 pid : Int)
    (h1 : defaultPokemonBySpecies env sid1 = some pid)
    (h2 : defaultPokemonBySpecies env sid2 = some pid) :
    sid1 = sid2 := by
  obtain ⟨r1, hm1, hi1, hs1⟩ := defaultPokemon_mem env sid1 pid h1
  obtain ⟨r2, hm2, hi2, hs2⟩ := defaultPokemon_mem env sid2 pid h2
  have hr : r1 = r2 := List.inj_on_of_nodup_map hp hm1 hm2 (by rw [hi1, hi2])
  rw [← hs1, ← hs2, hr]

theorem chainBucket_mem_row (env : SpeciesEnv) (cid : Int) (s : String)
    (hmem : s ∈ chainBucket env cid) :
    ∃ r ∈ env.speciesRows, r.id = s := by
  unfold chainBucket at hmem
  split at hmem
  · cases hmem
  · rw [List.mem_map] at hmem
    obtain ⟨r, hr, hid⟩ := hmem
    exact ⟨r, List.mem_of_mem_filter hr, hid⟩

theorem chainBucket_nodup (env : SpeciesEnv) (cid : Int)
    (hs : (env.speciesRows.map (fun r => safeIntS r.id 0)).Nodup) :
    (chainBucket env cid).Nodup := by
  have hid : (env.speciesRows.map (fun r => r.id)).Nodup := by
    have hmm : env.speciesRows.map (fun r => safeIntS r.id 0) =
        (env.speciesRows.map (fun r => r.id)).map (fun s => safeIntS s 0) := by
      simp [List.map_map, Function.comp]
    rw [hmm] at hs
    exact List.Nodup.of_map _ hs
  unfold chainBucket
  split
  · exact List.nodup_nil
  · exact List.Nodup.sublist (List.Sublist.map _ (List.filter_sublist _)) hid

theorem count_filterMap_eq_one {α β : Type} [DecidableEq α] [DecidableEq β]
    (f : α → Option β) (b : β) :
    ∀ (l : List α) (a : α), a ∈ l → f a = some b →
      (∀ x ∈ l, f x = some b → x = a) → l.Nodup →
      (l.filterMap f).count b = 1 := by
  intro l
  induction l with
  | nil => intro a ha _ _ _; cases ha
  | cons x rest ih =>
      intro a ha hfa huniq hnd
      rcases List.mem_cons.mp ha with rfl | ha2
      · have hnotin : b ∉ rest.filterMap f := by
          intro hb
          rw [List.mem_filterMap] at hb
          obtain ⟨y, hy, hfy⟩ := hb
          have hya := huniq y (List.mem_cons_of_mem _ hy) hfy
          exact (List.nodup_cons.mp hnd).1 (hya ▸ hy)
        rw [List.filterMap_cons, hfa]
        show (b :: rest.filterMap f).count b = 1
        rw [List.count_cons_self, List.count_eq_zero.mpr hnotin]
      · have hxa : x ≠ a := fun h => (List.nodup_cons.mp hnd).1 (h ▸ ha2)
        have hfx : f x ≠ some b := fun h => hxa (huniq x (List.mem_cons_self x rest) h)
        have hih := ih a ha2 hfa (fun y hy hfy => huniq y (List.mem_cons_of_mem _ hy) hfy)
          (List.nodup_cons.mp hnd).2
        rw [List.filterMap_cons]
        cases hfx2 : f x with
        | none =>
            show (rest.filterMap f).count b = 1
            exact hih
        | some c =>
            have hcb : b ≠ c := fun h => hfx (by rw [hfx2, h])
            show (c :: rest.filterMap f).count b = 1
            rw [List.count_cons_of_ne hcb]
            exact hih

/-- C4 (amended): under globally unique parsed species ids and unique
entity ids, a species row with a positive parsed chain id, a non-empty
parent pointer and truthy default entities on both sides generates, in its
chain, exactly one ordinary evolution edge — from the parent default
entity to the child default entity, with sort ordinal depth(child) * 10000
+ default_entity_id(child) — and any species lacking a truthy default
entity on either side generates none.  The original claim's unconditional
"for every species with a parent" is too strong: a species whose chain id
parses to zero or a negative number is never bucketed, so no edge at all
is built for it (see the counterexample). -/
theorem C4_amended_unique_ordinary_edge (env : SpeciesEnv) (fuel : Nat)
    (hs : (env.speciesRows.map (fun r => safeIntS r.id 0)).Nodup)
    (hp : (env.pokemonRows.map (fun r => r.id)).Nodup)
    (r : SpeciesRow) (hr : r ∈ env.speciesRows)
    (hcid : 0 < safe_int r.evolutionChainId 0)
    (hpar : (speciesParentOf env r.id == "") = false)
    (fp tp : Int)
    (hfp : truthyPid (defaultPokemonBySpecies env (safeIntS (speciesParentOf env r.id) 0)) =
      some fp)
    (htp : truthyPid (defaultPokemonBySpecies env (safeIntS r.id 0)) = some tp) :
    ordinaryEdgeFor env fuel (safe_int r.evolutionChainId 0) r.id =
      some ⟨safe_int r.evolutionChainId 0, fp, tp,
        evo_condition_text env (evoBySpecies env r.id),
        (speciesDepthD env (safe_int r.evolutionChainId 0) fuel r.id : Int) * 10000 + tp⟩ ∧
    (ordinaryEdges env fuel (safe_int r.evolutionChainId 0)).count
      ⟨safe_int r.evolutionChainId 0, fp, tp,
        evo_condition_text env (evoBySpecies env r.id),
        (speciesDepthD env (safe_int r.evolutionChainId 0) fuel r.id : Int) * 10000 + tp⟩ = 1 ∧
    (∀ s : String, ∀ c : Int,
      truthyPid (defaultPokemonBySpecies env (safeIntS (speciesParentOf env s) 0)) = none ∨
      truthyPid (defaultPokemonBySpecies env (safeIntS s 0)) = none →
      ordinaryEdgeFor env fuel c s = none) := by
  have hedge : ordinaryEdgeFor env fuel (safe_int r.evolutionChainId 0) r.id =
      some ⟨safe_int r.evolutionChainId 0, fp, tp,
        evo_condition_text env (evoBySpecies env r.id),
        (speciesDepthD env (safe_int r.evolutionChainId 0) fuel r.id : Int) * 10000 + tp⟩ := by
    unfold ordinaryEdgeFor
    rw [if_neg (by simp [hpar]), hfp, htp]
  refine ⟨hedge, ?_, ?_⟩
  · unfold ordinaryEdges
    refine count_filterMap_eq_one _ _ (chainBucket env (safe_int r.evolutionChainId 0)) r.id
      ?_ hedge ?_ (chainBucket_nodup env _ hs)
    · unfold chainBucket
      rw [if_neg (by omega)]
      rw [List.mem_map]
      refine ⟨r, ?_, rfl⟩
      rw [List.mem_filter]
      exact ⟨hr, by simp⟩
    · intro x hx hfx
      have h2 := (ordinaryEdgeFor_sort env fuel _ x _ hfx).2
      have hde : defaultPokemonBySpecies env (safeIntS x 0) = some tp :=
        truthyPid_eq_some _ _ h2
      have hdr : defaultPokemonBySpecies env (safeIntS r.id 0) = some tp :=
        truthyPid_eq_some _ _ htp
      have hsid : safeIntS x 0 = safeIntS r.id 0 :=
        defaultPokemon_inj env hp _ _ _ hde hdr
      obtain ⟨rx, hrx, hrxid⟩ := chainBucket_mem_row env _ x hx
      have hxr : rx = r := by
        refine List.inj_on_of_nodup_map hs hrx hr ?_
        rw [hrxid, hsid]
      rw [← hrxid, hxr]
  · intro s c hnone
    unfold ordinaryEdgeFor
    split
    · rfl
    · rcases hnone with h | h
      · rw [h]
      · rw [h]
        cases truthyPid (defaultPokemonBySpecies env (safeIntS (speciesParentOf env s) 0)) <;> rfl

/-- Concrete environment for the C4 counterexample: species 2 evolves from
species 1, both are fully populated with truthy default entities, but
their evolution chain id is the literal string 0, which parses to a
non-positive chain id. -/
def envC4 : SpeciesEnv :=
  ⟨[⟨"1", "", some "0"⟩, ⟨"2", "1", some "0"⟩],
   [⟨10, "a", 1, "A", some 1, none, none, some 10⟩,
    ⟨20, "b", 2, "B", some 1, none, none, some 20⟩],
   [], fun _ => none, fun _ => none, fun _ => none, fun _ => none⟩

/-- C4 counterexample: species 2 has a parent (species 1) and both species
have truthy default entities, yet the builder emits no ordinary evolution
edge anywhere, because the chain id of both rows parses to 0 and only
positive chain ids are bucketed and iterated — refuting the claim that
every species with a parent yields exactly one ordinary edge. -/
theorem C4_counterexample_chainless_species_no_edge :
    speciesParentOf envC4 "2" = "1" ∧
    truthyPid (defaultPokemonBySpecies envC4 (safeIntS (speciesParentOf envC4 "2") 0)) =
      some 10 ∧
    truthyPid (defaultPokemonBySpecies envC4 (safeIntS "2" 0)) = some 20 ∧
    allOrdinaryEdges envC4 5 = [] := by
  refine ⟨by decide, by decide, by decide, by decide⟩

/-- Witness for C4 (amended) at the C3 environment: species 2 of chain 1
generates exactly one ordinary edge, from entity 10 to entity 100 with
sort ordinal depth 1 * 10000 + 100. -/
theorem C4_amended_witness :
    ordinaryEdgeFor envC3 5 (safe_int (some "1") 0) "2" =
      some ⟨safe_int (some "1") 0, 10, 100,
        evo_condition_text envC3 (evoBySpecies envC3 "2"),
        (speciesDepthD envC3 (safe_int (some "1") 0) 5 "2" : Int) * 10000 + 100⟩ ∧
    (ordinaryEdges envC3 5 (safe_int (some "1") 0)).count
      ⟨safe_int (some "1") 0, 10, 100,
        evo_condition_text envC3 (evoBySpecies envC3 "2"),
        (speciesDepthD envC3 (safe_int (some "1") 0) 5 "2" : Int) * 10000 + 100⟩ = 1 :=
  ⟨(C4_amended_unique_ordinary_edge envC3 5 (by decide) (by decide)
      ⟨"2", "1", some "1"⟩ (by decide) (by decide) (by decide) 10 100 (by decide) (by decide)).1,
   (C4_amended_unique_ordinary_edge envC3 5 (by decide) (by decide)
      ⟨"2", "1", some "1"⟩ (by decide) (by decide) (by decide) 10 100 (by decide) (by decide)).2.1⟩

/-! ### C9: move-row deduplication (src/app.py 433-487)

The per-row loop of `build_database` over `pokemon_moves` keeps two seen-key
sets and two output lists.  A row whose move id is unknown to `move_detail`
is skipped; a row whose method id is an egg method appends an egg payload
unless its (parsed entity id, move id) key was already seen; a row whose
method id is a level-up method appends a level payload unless its (parsed
entity id, move id, parsed level) key was already seen.  The dictionaries
built before the loop are modelled as abstract lookup functions. -/

/-- Python `str.replace` over character lists for a non-empty pattern:
scan left to right and splice the replacement at each non-overlapping
occurrence.  Fuel is the subject length; every step consumes at least one
character, so that much fuel always suffices. -/
def pyReplaceF (pat rep : List Char) : Nat → List Char → List Char
  | 0, s => s
  | _ + 1, [] => []
  | fuel + 1, c :: rest =>
      if pat.isPrefixOf (c :: rest) then
        rep ++ pyReplaceF pat rep fuel ((c :: rest).drop pat.length)
      else c :: pyReplaceF pat rep fuel rest

/-- Python `s.replace(pat, rep)`.  The source's only call site (line 444)
uses the fixed non-empty pattern so the empty pattern, on which Python
splices between every character, is mapped to the identity here. -/
def pyReplace (s pat rep : String) : String :=
  if pat = "" then s
  else String.mk (pyReplaceF pat.data rep.data s.data.length s.data)

/-- One row of the `moves` table as the loop reads it (`move_detail`,
lines 425, 439-447): direct-access columns are strings, `.get` columns are
optional. -/
structure MoveDetail where
  effectId : String
  effectChance : String
  damageClassId : String
  typeId : String
  generationId : Option String
  power : Option String
  accuracy : Option String
  pp : Option String
  deriving Repr, DecidableEq

/-- One row of `pokemon_moves` as the loop reads it (lines 438-469). -/
structure PMRow where
  pokemonId : String
  moveId : String
  pokemonMoveMethodId : String
  level : Option String
  deriving Repr, DecidableEq

/-- The lookups the loop consults, built from the CSV tables before the
loop (lines 420-431). -/
structure MoveEnv where
  moveDetail : String → Option MoveDetail
  eggMethodIds : List String
  levelMethodIds : List String
  moveNameKo : String → Option String
  moveIdentifier : String → Option String
  typeNameKo : String → Option String
  damageClassKo : String → Option String
  damageClassIdentifier : String → Option String
  moveFlavorKo : String → Option String
  moveEffectKo : String → Option String
  moveFlavorEn : String → Option String
  moveEffectEn : String → Option String

/-- `effect_text` of line 444: the chosen localized text with
`$effect_chance` replaced by the move's effect chance (or `-`). -/
def effect_text (env : MoveEnv) (m : MoveDetail) (r : PMRow) : String :=
  pyReplace
    (choose_localized_text (env.moveFlavorKo r.moveId) (env.moveEffectKo m.effectId)
      (env.moveFlavorEn r.moveId) (env.moveEffectEn m.effectId))
    "$effect_chance" (pyOrStr m.effectChance "-")

/-- `dmg_cls` of line 445. -/
def dmgCls (env : MoveEnv) (m : MoveDetail) : String :=
  (env.damageClassKo m.damageClassId).getD
    ((env.damageClassIdentifier m.damageClassId).getD "미상")

/-- `is_post_oras` of line 446. -/
def isPostOras (m : MoveDetail) : Int :=
  if 6 < safe_int m.generationId 0 then 1 else 0

/-- One emitted breeding-move row (lines 452-464). -/
structure EggRow where
  pokemonId : Int
  moveName : String
  moveIdent : String
  typeName : String
  dmgClsText : String
  power : Int
  accuracy : Int
  pp : Int
  effectText : String
  isPostOras : Int
  deriving Repr, DecidableEq

/-- One emitted leveling-move row (lines 471-485). -/
structure LevelRow where
  pokemonId : Int
  moveName : String
  typeName : String
  dmgClsText : String
  power : Int
  accuracy : Int
  pp : Int
  effectText : String
  level : Int
  isPostOras : Int
  deriving Repr, DecidableEq

/-- The egg dedup key `(safe_int(r["pokemon_id"]), r["move_id"])` (line 449). -/
def eggKey (r : PMRow) : Int × String := (safeIntS r.pokemonId 0, r.moveId)

/-- The level dedup key `(safe_int(r["pokemon_id"]), r["move_id"], lvl)`
(line 468). -/
def levelKey (r : PMRow) : Int × String × Int :=
  (safeIntS r.pokemonId 0, r.moveId, safe_int r.level 0)

/-- The egg payload tuple of lines 453-463. -/
def eggPayload (env : MoveEnv) (m : MoveDetail) (r : PMRow) : EggRow :=
  ⟨safeIntS r.pokemonId 0,
   (env.moveNameKo r.moveId).getD ((env.moveIdentifier r.moveId).getD "unknown"),
   (env.moveIdentifier r.moveId).getD "unknown",
   (env.typeNameKo m.typeId).getD m.typeId,
   dmgCls env m,
   safe_int m.power 0, safe_int m.accuracy 0, safe_int m.pp 0,
   effect_text env m r, isPostOras m⟩

/-- The level payload tuple of lines 472-484. -/
def levelPayload (env : MoveEnv) (m : MoveDetail) (r : PMRow) (lvl : Int) : LevelRow :=
  ⟨safeIntS r.pokemonId 0,
   (env.moveNameKo r.moveId).getD ((env.moveIdentifier r.moveId).getD "unknown"),
   (env.typeNameKo m.typeId).getD m.typeId,
   dmgCls env m,
   safe_int m.power 0, safe_int m.accuracy 0, safe_int m.pp 0,
   effect_text env m r, lvl, isPostOras m⟩

/-- The loop state: the two seen-key sets (modelled as lists queried by
membership) and the two output lists, in append order. -/
structure MoveState where
  seenEgg : List (Int × String)
  eggRows : List EggRow
  seenLevel : List (Int × String × Int)
  levelRows : List LevelRow
  deriving Repr, DecidableEq

/-- The egg block of the loop body (lines 448-464). -/
def eggStep (env : MoveEnv) (st : MoveState) (m : MoveDetail) (r : PMRow) : MoveState :=
  if r.pokemonMoveMethodId ∈ env.eggMethodIds then
    if eggKey r ∈ st.seenEgg then st
    else ⟨eggKey r :: st.seenEgg, st.eggRows ++ [eggPayload env m r],
          st.seenLevel, st.levelRows⟩
  else st

/-- The level block of the loop body (lines 466-485). -/
def levelStep (env : MoveEnv) (st : MoveState) (m : MoveDetail) (r : PMRow) : MoveState :=
  if r.pokemonMoveMethodId ∈ env.levelMethodIds then
    if levelKey r ∈ st.seenLevel then st
    else ⟨st.seenEgg, st.eggRows, levelKey r :: st.seenLevel,
          st.levelRows ++ [levelPayload env m r (safe_int r.level 0)]⟩
  else st

/-- One iteration of the loop (lines 438-485): rows with an unknown move
are skipped, the egg block runs before the level block. -/
def moveStep (env : MoveEnv) (st : MoveState) (r : PMRow) : MoveState :=
  match env.moveDetail r.moveId with
  | none => st
  | some m => levelStep env (eggStep env st m r) m r

/-- The whole loop from the empty seen sets and empty outputs. -/
def processMoves (env : MoveEnv) (rows : List PMRow) : MoveState :=
  rows.foldl (moveStep env) ⟨[], [], [], []⟩

/-- A row generates an egg row when its move is known and its method is an
egg method (spec-side eligibility). -/
def eggEligible (env : MoveEnv) (r : PMRow) : Bool :=
  (env.moveDetail r.moveId).isSome && decide (r.pokemonMoveMethodId ∈ env.eggMethodIds)

/-- A row generates a level row when its move is known and its method is a
level-up method (spec-side eligibility). -/
def levelEligible (env : MoveEnv) (r : PMRow) : Bool :=
  (env.moveDetail r.moveId).isSome && decide (r.pokemonMoveMethodId ∈ env.levelMethodIds)

/-- Spec-side first-occurrence dedup: keep a row when its key is new,
remembering the keys already kept. -/
def dedupByKey {κ : Type} [DecidableEq κ] (key : PMRow → κ) : List κ → List PMRow → List PMRow
  | _, [] => []
  | seen, r :: rest =>
      if key r ∈ seen then dedupByKey key seen rest
      else r :: dedupByKey key (key r :: seen) rest

/-- The egg row a kept row produces. -/
def eggOutput (env : MoveEnv) (r : PMRow) : Option EggRow :=
  (env.moveDetail r.moveId).map (fun m => eggPayload env m r)

/-- The level row a kept row produces. -/
def levelOutput (env : MoveEnv) (r : PMRow) : Option LevelRow :=
  (env.moveDetail r.moveId).map (fun m => levelPayload env m r (safe_int r.level 0))

theorem dedupByKey_cons {κ : Type} [DecidableEq κ] (key : PMRow → κ) (seen : List κ)
    (r : PMRow) (l : List PMRow) :
    dedupByKey key seen (r :: l) =
      if key r ∈ seen then dedupByKey key seen l
      else r :: dedupByKey key (key r :: seen) l := rfl

theorem levelStep_preserves (env : MoveEnv) (st : MoveState) (m : MoveDetail) (r : PMRow) :
    (levelStep env st m r).seenEgg = st.seenEgg ∧
    (levelStep env st m r).eggRows = st.eggRows := by
  unfold levelStep
  split
  · split
    · exact ⟨rfl, rfl⟩
    · exact ⟨rfl, rfl⟩
  · exact ⟨rfl, rfl⟩

theorem eggStep_preserves (env : MoveEnv) (st : MoveState) (m : MoveDetail) (r : PMRow) :
    (eggStep env st m r).seenLevel = st.seenLevel ∧
    (eggStep env st m r).levelRows = st.levelRows := by
  unfold eggStep
  split
  · split
    · exact ⟨rfl, rfl⟩
    · exact ⟨rfl, rfl⟩
  · exact ⟨rfl, rfl⟩

theorem eggStep_not_method (env : MoveEnv) (st : MoveState) (m : MoveDetail) (r : PMRow)
    (h : r.pokemonMoveMethodId ∉ env.eggMethodIds) :
    eggStep env st m r = st := by
  unfold eggStep
  rw [if_neg h]

theorem eggStep_seen (env : MoveEnv) (st : MoveState) (m : MoveDetail) (r : PMRow)
    (h : eggKey r ∈ st.seenEgg) :
    eggStep env st m r = st := by
  unfold eggStep
  by_cases hmeth : r.pokemonMoveMethodId ∈ env.eggMethodIds
  · rw [if_pos hmeth, if_pos h]
  · rw [if_neg hmeth]

theorem eggStep_new (env : MoveEnv) (st : MoveState) (m : MoveDetail) (r : PMRow)
    (hmeth : r.pokemonMoveMethodId ∈ env.eggMethodIds) (hseen : eggKey r ∉ st.seenEgg) :
    eggStep env st m r =
      ⟨eggKey r :: st.seenEgg, st.eggRows ++ [eggPayload env m r],
       st.seenLevel, st.levelRows⟩ := by
  unfold eggStep
  rw [if_pos hmeth, if_neg hseen]

theorem levelStep_not_method (env : MoveEnv) (st : MoveState) (m : MoveDetail) (r : PMRow)
    (h : r.pokemonMoveMethodId ∉ env.levelMethodIds) :
    levelStep env st m r = st := by
  unfold levelStep
  rw [if_neg h]

theorem levelStep_seen (env : MoveEnv) (st : MoveState) (m : MoveDetail) (r : PMRow)
    (h : levelKey r ∈ st.seenLevel) :
    levelStep env st m r = st := by
  unfold levelStep
  by_cases hmeth : r.pokemonMoveMethodId ∈ env.levelMethodIds
  · rw [if_pos hmeth, if_pos h]
  · rw [if_neg hmeth]

theorem levelStep_new (env : MoveEnv) (st : MoveState) (m : MoveDetail) (r : PMRow)
    (hmeth : r.pokemonMoveMethodId ∈ env.levelMethodIds) (hseen : levelKey r ∉ st.seenLevel) :
    levelStep env st m r =
      ⟨st.seenEgg, st.eggRows, levelKey r :: st.seenLevel,
       st.levelRows ++ [levelPayload env m r (safe_int r.level 0)]⟩ := by
  unfold levelStep
  rw [if_pos hmeth, if_neg hseen]

theorem moveStep_egg_skip (env : MoveEnv) (st : MoveState) (r : PMRow)
    (h : eggEligible env r = false) :
    (moveStep env st r).eggRows = st.eggRows ∧
    (moveStep env st r).seenEgg = st.seenEgg := by
  unfold moveStep
  split
  · exact ⟨rfl, rfl⟩
  · rename_i m hm
    have hmeth : r.pokemonMoveMethodId ∉ env.eggMethodIds := by
      unfold eggEligible at h
      rw [hm] at h
      simpa using h
    rw [eggStep_not_method env st m r hmeth]
    exact ⟨(levelStep_preserves env st m r).2, (levelStep_preserves env st m r).1⟩

theorem moveStep_egg_active (env : MoveEnv) (st : MoveState) (r : PMRow) (m : MoveDetail)
    (hm : env.moveDetail r.moveId = some m)
    (hmeth : r.pokemonMoveMethodId ∈ env.eggMethodIds) :
    (moveStep env st r).eggRows =
      (if eggKey r ∈ st.seenEgg then st.eggRows else st.eggRows ++ [eggPayload env m r]) ∧
    (moveStep env st r).seenEgg =
      (if eggKey r ∈ st.seenEgg then st.seenEgg else eggKey r :: st.seenEgg) := by
  unfold moveStep
  split
  · rename_i hnone
    rw [hnone] at hm
    cases hm
  · rename_i m2 hm2
    rw [hm2] at hm
    injection hm with hm
    subst hm
    by_cases hseen : eggKey r ∈ st.seenEgg
    · rw [if_pos hseen, if_pos hseen, eggStep_seen env st m2 r hseen]
      exact ⟨(levelStep_preserves env st m2 r).2, (levelStep_preserves env st m2 r).1⟩
    · rw [if_neg hseen, if_neg hseen, eggStep_new env st m2 r hmeth hseen]
      exact ⟨(levelStep_preserves env _ m2 r).2, (levelStep_preserves env _ m2 r).1⟩

theorem moveStep_level_skip (env : MoveEnv) (st : MoveState) (r : PMRow)
    (h : levelEligible env r = false) :
    (moveStep env st r).levelRows = st.levelRows ∧
    (moveStep env st r).seenLevel = st.seenLevel := by
  unfold moveStep
  split
  · exact ⟨rfl, rfl⟩
  · rename_i m hm
    have hmeth : r.pokemonMoveMethodId ∉ env.levelMethodIds := by
      unfold levelEligible at h
      rw [hm] at h
      simpa using h
    rw [levelStep_not_method env _ m r hmeth]
    exact ⟨(eggStep_preserves env st m r).2, (eggStep_preserves env st m r).1⟩

theorem moveStep_level_active (env : MoveEnv) (st : MoveState) (r : PMRow) (m : MoveDetail)
    (hm : env.moveDetail r.moveId = some m)
    (hmeth : r.pokemonMoveMethodId ∈ env.levelMethodIds) :
    (moveStep env st r).levelRows =
      (if levelKey r ∈ st.seenLevel then st.levelRows
       else st.levelRows ++ [levelPayload env m r (safe_int r.level 0)]) ∧
    (moveStep env st r).seenLevel =
      (if levelKey r ∈ st.seenLevel then st.seenLevel else levelKey r :: st.seenLevel) := by
  unfold moveStep
  split
  · rename_i hnone
    rw [hnone] at hm
    cases hm
  · rename_i m2 hm2
    rw [hm2] at hm
    injection hm with hm
    subst hm
    have hegg := eggStep_preserves env st m2 r
    by_cases hseen : levelKey r ∈ st.seenLevel
    · rw [if_pos hseen, if_pos hseen]
      have hseen2 : levelKey r ∈ (eggStep env st m2 r).seenLevel := by
        rw [hegg.1]
        exact hseen
      rw [levelStep_seen env _ m2 r hseen2]
      exact ⟨hegg.2, hegg.1⟩
    · rw [if_neg hseen, if_neg hseen]
      have hseen2 : levelKey r ∉ (eggStep env st m2 r).seenLevel := by
        rw [hegg.1]
        exact hseen
      rw [levelStep_new env _ m2 r hmeth hseen2]
      constructor
      · show (eggStep env st m2 r).levelRows ++ [levelPayload env m2 r (safe_int r.level 0)] =
          st.levelRows ++ [levelPayload env m2 r (safe_int r.level 0)]
        rw [hegg.2]
      · show levelKey r :: (eggStep env st m2 r).seenLevel = levelKey r :: st.seenLevel
        rw [hegg.1]

theorem processFrom_egg (env : MoveEnv) :
    ∀ (rows : List PMRow) (st : MoveState),
      (rows.foldl (moveStep env) st).eggRows =
        st.eggRows ++
          (dedupByKey eggKey st.seenEgg (rows.filter (eggEligible env))).filterMap
            (eggOutput env) := by
  intro rows
  induction rows with
  | nil =>
      intro st
      rw [List.foldl_nil, List.filter_nil]
      show st.eggRows = st.eggRows ++ ([] : List PMRow).filterMap (eggOutput env)
      rw [List.filterMap_nil, List.append_nil]
  | cons r rest ih =>
      intro st
      rw [List.foldl_cons, List.filter_cons]
      cases helig : eggEligible env r with
      | false =>
          rw [if_neg Bool.false_ne_true]
          rw [ih (moveStep env st r)]
          have hskip := moveStep_egg_skip env st r helig
          rw [hskip.1, hskip.2]
      | true =>
          rw [if_pos rfl, dedupByKey_cons]
          have hmx : ∃ m, env.moveDetail r.moveId = some m := by
            unfold eggEligible at helig
            rw [Bool.and_eq_true] at helig
            cases hd : env.moveDetail r.moveId with
            | none => rw [hd] at helig; cases helig.1
            | some m => exact ⟨m, rfl⟩
          obtain ⟨m, hm⟩ := hmx
          have hmeth : r.pokemonMoveMethodId ∈ env.eggMethodIds := by
            unfold eggEligible at helig
            rw [Bool.and_eq_true] at helig
            exact of_decide_eq_true helig.2
          have hact := moveStep_egg_active env st r m hm hmeth
          by_cases hseen : eggKey r ∈ st.seenEgg
          · rw [if_pos hseen, ih (moveStep env st r), hact.1, hact.2,
              if_pos hseen, if_pos hseen]
          · rw [if_neg hseen, ih (moveStep env st r), hact.1, hact.2,
              if_neg hseen, if_neg hseen]
            have hout : eggOutput env r = some (eggPayload env m r) := by
              unfold eggOutput
              rw [hm]
              rfl
            rw [List.filterMap_cons_some hout, List.append_assoc, List.singleton_append]

theorem processFrom_level (env : MoveEnv) :
    ∀ (rows : List PMRow) (st : MoveState),
      (rows.foldl (moveStep env) st).levelRows =
        st.levelRows ++
          (dedupByKey levelKey st.seenLevel (rows.filter (levelEligible env))).filterMap
            (levelOutput env) := by
  intro rows
  induction rows with
  | nil =>
      intro st
      rw [List.foldl_nil, List.filter_nil]
      show st.levelRows = st.levelRows ++ ([] : List PMRow).filterMap (levelOutput env)
      rw [List.filterMap_nil, List.append_nil]
  | cons r rest ih =>
      intro st
      rw [List.foldl_cons, List.filter_cons]
      cases helig : levelEligible env r with
      | false =>
          rw [if_neg Bool.false_ne_true]
          rw [ih (moveStep env st r)]
          have hskip := moveStep_level_skip env st r helig
          rw [hskip.1, hskip.2]
      | true =>
          rw [if_pos rfl, dedupByKey_cons]
          have hmx : ∃ m, env.moveDetail r.moveId = some m := by
            unfold levelEligible at helig
            rw [Bool.and_eq_true] at helig
            cases hd : env.moveDetail r.moveId with
            | none => rw [hd] at helig; cases helig.1
            | some m => exact ⟨m, rfl⟩
          obtain ⟨m, hm⟩ := hmx
          have hmeth : r.pokemonMoveMethodId ∈ env.levelMethodIds := by
            unfold levelEligible at helig
            rw [Bool.and_eq_true] at helig
            exact of_decide_eq_true helig.2
          have hact := moveStep_level_active env st r m hm hmeth
          by_cases hseen : levelKey r ∈ st.seenLevel
          · rw [if_pos hseen, ih (moveStep env st r), hact.1, hact.2,
              if_pos hseen, if_pos hseen]
          · rw [if_neg hseen, ih (moveStep env st r), hact.1, hact.2,
              if_neg hseen, if_neg hseen]
            have hout : levelOutput env r = some (levelPayload env m r (safe_int r.level 0)) := by
              unfold levelOutput
              rw [hm]
              rfl
            rw [List.filterMap_cons_some hout, List.append_assoc, List.singleton_append]

theorem dedupByKey_keys_nodup {κ : Type} [DecidableEq κ] (key : PMRow → κ) :
    ∀ (l : List PMRow) (seen : List κ),
      ((dedupByKey key seen l).map key).Nodup ∧
      ∀ k ∈ (dedupByKey key seen l).map key, k ∉ seen := by
  intro l
  induction l with
  | nil =>
      intro seen
      exact ⟨List.nodup_nil, by intro k hk; cases hk⟩
  | cons r rest ih =>
      intro seen
      rw [dedupByKey_cons]
      by_cases hseen : key r ∈ seen
      · rw [if_pos hseen]
        exact ih seen
      · rw [if_neg hseen]
        obtain ⟨hnd, hdisj⟩ := ih (key r :: seen)
        rw [List.map_cons]
        constructor
        · rw [List.nodup_cons]
          refine ⟨?_, hnd⟩
          intro hmem
          exact hdisj _ hmem (List.mem_cons_self _ _)
        · intro k hk
          rcases List.mem_cons.mp hk with rfl | hk2
          · exact hseen
          · intro hks
            exact hdisj k hk2 (List.mem_cons_of_mem _ hks)

/-- C9: over any sequence of source move rows, possibly with duplicates,
the emitted breeding-move rows are exactly the payloads of the
first-occurrence-per-key subsequence of the eligible rows (key: parsed
entity id and move id), the emitted leveling-move rows likewise (key:
parsed entity id, move id and parsed level), and in both cases the kept
keys are pairwise distinct — later duplicate source rows are dropped and
each key appears at most once. -/
theorem C9_move_rows_first_seen_dedup (env : MoveEnv) (rows : List PMRow) :
    (processMoves env rows).eggRows =
      (dedupByKey eggKey [] (rows.filter (eggEligible env))).filterMap (eggOutput env) ∧
    ((dedupByKey eggKey [] (rows.filter (eggEligible env))).map eggKey).Nodup ∧
    (processMoves env rows).levelRows =
      (dedupByKey levelKey [] (rows.filter (levelEligible env))).filterMap (levelOutput env) ∧
    ((dedupByKey levelKey [] (rows.filter (levelEligible env))).map levelKey).Nodup := by
  refine ⟨?_, (dedupByKey_keys_nodup eggKey (rows.filter (eggEligible env)) []).1, ?_,
    (dedupByKey_keys_nodup levelKey (rows.filter (levelEligible env)) []).1⟩
  · unfold processMoves
    rw [processFrom_egg env rows ⟨[], [], [], []⟩]
    rfl
  · unfold processMoves
    rw [processFrom_level env rows ⟨[], [], [], []⟩]
    rfl

/-! ### C10: rebuild failure handling (src/app.py 158-196, 615-620)

The builder's effects on the store file are modelled by explicit state
passing: a store file holds the list of tables written so far and the
`user_version` pragma value (0 on a freshly created sqlite database).
The write script of `build_database` is its ten bulk inserts in source
order followed by the version stamp; an exception anywhere in the build is
modelled by an injected fault index, the number of operations completed
before the raise.  The rebuild arm of `ensure_db` wraps the build: on an
exception it unlinks whatever partial file exists and raises the typed
initialization failure. -/

def DB_SCHEMA_VERSION : Int := 3

/-- State of the store file: tables written so far, and the
`user_version` pragma value. -/
structure StoreFile where
  tables : List String
  userVersion : Int
  deriving Repr, DecidableEq

/-- One effectful step of `build_database`: a bulk table write
(`executemany`) or the version stamp (`PRAGMA user_version`, line 618). -/
inductive DbOp where
  | writeTable : String → DbOp
  | stampVersion : Int → DbOp
  deriving Repr, DecidableEq

/-- Freshly created store: no tables, `user_version` 0. -/
def emptyStore : StoreFile := ⟨[], 0⟩

/-- Effect of one operation on the store file. -/
def applyOp (f : StoreFile) (op : DbOp) : StoreFile :=
  match op with
  | DbOp.writeTable t => ⟨f.tables ++ [t], f.userVersion⟩
  | DbOp.stampVersion v => ⟨f.tables, v⟩

/-- Effect of a sequence of operations. -/
def runOps (ops : List DbOp) (f : StoreFile) : StoreFile := ops.foldl applyOp f

/-- Write script of `build_database` in source order: the ten bulk inserts
(src/app.py lines 377, 378, 381, 407, 410, 415, 486, 487, 615, 616) and
then the version stamp (line 618), the last operation before commit. -/
def buildScript : List DbOp :=
  [DbOp.writeTable "pokemon",
   DbOp.writeTable "pokemon_form_meta",
   DbOp.writeTable "pokemon_stat",
   DbOp.writeTable "pokemon_ability",
   DbOp.writeTable "pokemon_type",
   DbOp.writeTable "type_efficacy",
   DbOp.writeTable "pokemon_egg_move",
   DbOp.writeTable "pokemon_level_move",
   DbOp.writeTable "evolution_member",
   DbOp.writeTable "evolution_edge",
   DbOp.stampVersion DB_SCHEMA_VERSION]

/-- Run of `build_database` with an injected fault: `none` runs to
completion, `some k` raises after the first `k` operations; the partial
file is carried in the error since `build_database` has no handler of its
own and leaves it on disk as the exception propagates. -/
def build_database_run (failAt : Option Nat) : Except StoreFile StoreFile :=
  match failAt with
  | none => Except.ok (runOps buildScript emptyStore)
  | some k => Except.error (runOps (buildScript.take k) emptyStore)

/-- Rebuild arm of `ensure_db` (src/app.py lines 190-196): on success the
built file remains on disk; on any exception the partially-written file is
unlinked and the typed initialization failure is raised.  The result pair
is (file on disk after the call, outcome). -/
def ensure_db_rebuild (failAt : Option Nat) : Option StoreFile × Except String Unit :=
  match build_database_run failAt with
  | Except.ok f => (some f, Except.ok ())
  | Except.error _ =>
      (none, Except.error "데이터셋 초기화 실패: 네트워크에서 PokeAPI CSV를 내려받을 수 없습니다.")

/-- C10: a fault at any point of the rebuild leaves no store file behind
and surfaces the fixed typed initialization-failure message, while a
fault-free rebuild leaves exactly the fully built store, whose version
marker equals the schema version; and every strict prefix of the build
script leaves the version marker at 0, so the marker is stamped only when
the full script has run. -/
theorem C10_rebuild_deletes_partial_store :
    (ensure_db_rebuild none =
        (some (runOps buildScript emptyStore), Except.ok ()) ∧
      (runOps buildScript emptyStore).userVersion = DB_SCHEMA_VERSION) ∧
    (∀ k : Nat, ensure_db_rebuild (some k) =
      (none, Except.error "데이터셋 초기화 실패: 네트워크에서 PokeAPI CSV를 내려받을 수 없습니다.")) ∧
    (∀ k : Nat, k < buildScript.length →
      (runOps (buildScript.take k) emptyStore).userVersion = 0) := by
  refine ⟨⟨rfl, by decide⟩, ?_, ?_⟩
  · intro k
    rfl
  · intro k hk
    have h11 : buildScript.length = 11 := rfl
    rw [h11] at hk
    interval_cases k <;> decide

/-- Witness for C10 at a concrete fault index: failing after five
operations leaves no file, and the five-operation prefix had not stamped
the version marker. -/
theorem C10_witness :
    (runOps (buildScript.take 5) emptyStore).userVersion = 0 ∧
    ensure_db_rebuild (some 5) =
      (none, Except.error "데이터셋 초기화 실패: 네트워크에서 PokeAPI CSV를 내려받을 수 없습니다.") :=
  ⟨C10_rebuild_deletes_partial_store.2.2 5 (by decide),
   C10_rebuild_deletes_partial_store.2.1 5⟩
